import Mathlib

/-!
# Verification of the tensordb tensor database core

This file gives a shallow embedding in Lean 4 of the core of the
`sciefylab/tensordb` Go repository (tensor value and stride arithmetic,
slicing, batched materialization, metadata file encoding/parsing, the
in-memory secondary index, the CREATE/INSERT executor paths, and the
CREATE-branch of the query parser), and proves or refutes the frozen
specification claims about it.

Conventions of the embedding:
* Go `int` is modelled by `Int` (no claim in scope depends on 64-bit
  overflow behaviour).
* Go `[]int` is `List Int`; Go `[2]int` ranges are `Int × Int`.
* Go strings handled by the storage layer are modelled as `List Char`
  so that splitting/joining round trips can be proved by induction;
  strings at the query surface stay `String`.
* Fallible Go functions returning `(T, error)` become `Except String T`.
* File I/O is replaced by an explicit `Store` value; mmap lifecycle,
  syncing and concurrency are not modelled.
-/

set_option autoImplicit false

namespace TensorDB

/-! ## Shapes, total elements and strides (tensor.go) -/

/-- Total number of elements of a shape: 1 for rank 0, otherwise the
product of the dimensions, which is 0 as soon as a dimension is 0.
Mirrors `Tensor.getTotalElements` / `tNilaiTotalElemen` in
`src/tensor/tensor.go` (the Go loop breaks at the first zero dimension
and returns 0, which agrees with multiplying the remaining product by 0). -/
def totalElems : List Int → Int
  | [] => 1
  | d :: rest => if d = 0 then 0 else d * totalElems rest

/-- The stride recurrence of `NewTensor` (`src/tensor/tensor.go:127-134`):
the last stride is 1 and `strides[i]` is 0 when `shape[i+1] = 0` and
`strides[i+1] * shape[i+1]` otherwise.  This is the loop body shared by
`NewTensor`, `GetDataForInference` and the load/save recompute paths. -/
def stridesCore : List Int → List Int
  | [] => []
  | [_] => [1]
  | _ :: d1 :: rest =>
    let s := stridesCore (d1 :: rest)
    (if d1 = 0 then 0 else s.headD 0 * d1) :: s

/-- Strides assigned by `NewTensor` (`src/tensor/tensor.go:124-136`):
`make([]int, len(shape))` (all zeros), filled by the recurrence only
when the shape is non-empty and its total element count is positive. -/
def computeStridesNew (shape : List Int) : List Int :=
  if shape.length > 0 ∧ totalElems shape > 0 then stridesCore shape
  else List.replicate shape.length 0

/-- The partial product computed by `loadTensorMetadataInternal`
(`src/pkg/tensor/storage.go:313-321`): the product of the dimensions
strictly before the first zero dimension (it is *not* forced to 0 by a
zero dimension, unlike `totalElems`). -/
def prodBeforeZero : List Int → Int
  | [] => 1
  | d :: rest => if d = 0 then 1 else d * prodBeforeZero rest

/-- `true` iff some dimension is 0 (the `isZeroDim` flag of the Go code). -/
def hasZeroDim (shape : List Int) : Bool :=
  shape.any (fun d => d = 0)

/-- Strides recomputed when the `strides` key is absent from a loaded
metadata file (`src/pkg/tensor/storage.go:310-340`).  For a non-empty
shape the guard is `totalElements > 0 || (len(shape) > 0 && !isZeroDim)`
where `totalElements` is `prodBeforeZero`; when it fails the strides are
all zeros, and for rank 0 they are empty. -/
def computeStridesLoad (shape : List Int) : List Int :=
  if shape.length > 0 then
    if prodBeforeZero shape > 0 ∨ (shape.length > 0 ∧ ¬ hasZeroDim shape) then
      stridesCore shape
    else
      List.replicate shape.length 0
  else []

/-- The stride recurrence as the specification states it (spec §3,
"Stride invariant"), with no special case for zero dimensions:
`strides[rank-1] = 1` and `strides[i] = strides[i+1] * shape[i+1]`.
This definition follows the spec's words and is compared against the
definitions translated from the source. -/
def specStrides : List Int → List Int
  | [] => []
  | [_] => [1]
  | _ :: d1 :: rest =>
    let s := specStrides (d1 :: rest)
    (s.headD 0 * d1) :: s

/-! ## Numeric kinds and codec sizes (tensor.go) -/

def DataTypeFloat32 : String := "float32"
def DataTypeFloat64 : String := "float64"
def DataTypeInt32 : String := "int32"
def DataTypeInt64 : String := "int64"

/-- `GetElementSize` (`src/tensor/tensor.go:23-36`). -/
def getElementSize (dataType : String) : Except String Int :=
  if dataType = DataTypeFloat32 then .ok 4
  else if dataType = DataTypeFloat64 then .ok 8
  else if dataType = DataTypeInt32 then .ok 4
  else if dataType = DataTypeInt64 then .ok 8
  else .error ("unsupported data type string: " ++ dataType)

/-! ## Tensor values (tensor.go) -/

/-- `Tensor[T]` (`src/tensor/tensor.go:57-63`). -/
structure Tensor (α : Type) where
  name : String
  shape : List Int
  data : List α
  dataType : String
  strides : List Int
  deriving Repr, DecidableEq

/-- `BatchInfo` (`src/tensor/tensor.go:78-82`). -/
structure BatchInfo where
  batchSize : Int
  numBatches : Int
  currentBatchIndex : Int
  deriving Repr, DecidableEq

/-- `TensorDataWithMetadata[T]` (`src/tensor/tensor.go:66-76`). -/
structure TensorDataWithMetadata (α : Type) where
  name : String
  shape : List Int
  numDimensions : Int
  dataType : String
  totalElements : Int
  dataSizeBytes : Int
  strides : List Int
  batchInfo : Option BatchInfo
  data : List α
  deriving Repr, DecidableEq

/-- `NewTensor[T]` (`src/tensor/tensor.go:91-141`).  `typeStrT` stands for
`GetDataTypeString[T]()`, the canonical name of the Lean-side element type. -/
def newTensor {α : Type} [Zero α] (typeStrT : String) (name : String)
    (shape : List Int) (dataTypeString : String) : Except String (Tensor α) :=
  if typeStrT ≠ dataTypeString then
    .error ("type parameter T (" ++ typeStrT ++ ") does not match dataTypeString ("
      ++ dataTypeString ++ ")")
  else if shape.any (fun d => d < 0) then
    .error "invalid dimension size: cannot be negative"
  else
    .ok { name := name, shape := shape,
          data := List.replicate (totalElems shape).toNat (0 : α),
          dataType := dataTypeString, strides := computeStridesNew shape }

/-! ## GetSlice (tensor.go:175-277) -/

/-- The source offset `Σ idx[i] * strides[i]` of `GetSlice`'s main loop
(`src/tensor/tensor.go:247-250`).  The Go loop indexes `t.Strides[i]` for
each position of the index vector; under the well-formedness used in the
theorems the two lists have equal length, which the `zip` models. -/
def dotProd (idx strides : List Int) : Int :=
  (List.zip idx strides).foldl (fun acc p => acc + p.1 * p.2) 0

/-- One odometer increment of `GetSlice`'s main loop
(`src/tensor/tensor.go:264-274`), on the *reversed* index vector and
ranges (the Go loop walks dimensions from last to first).  Returns
`(overflowed, newIdx)`: a non-first dimension that reaches its upper
bound is reset to its lower bound and the carry moves on; if the first
dimension overflows the main loop breaks (`overflowed = true`). -/
def odoIncRev : List Int → List (Int × Int) → Bool × List Int
  | [], _ => (false, [])
  | i :: is, [] => (false, i :: is)
  | i :: is, r :: rs =>
    if i + 1 < r.2 then (false, (i + 1) :: is)
    else if is.isEmpty then (true, (i + 1) :: is)
    else
      let p := odoIncRev is rs
      (p.1, r.1 :: p.2)

def odoInc (idx : List Int) (ranges : List (Int × Int)) : Bool × List Int :=
  let p := odoIncRev idx.reverse ranges.reverse
  (p.1, p.2.reverse)

/-- The main copy loop of `GetSlice` (`src/tensor/tensor.go:244-275`),
with the iteration count (`resultSize` minus the destination index) as
fuel; the Go loop runs exactly once per destination slot and stops when
the destination is full or the odometer overflows past dimension 0 (in
which case the remaining pre-allocated destination slots keep Go's zero
value).  A negative source offset, which would be a Go runtime panic at
`t.Data[sourceOffset]`, is modelled as an error as well. -/
def sliceLoop {α : Type} [Zero α] (data : List α) (strides : List Int)
    (ranges : List (Int × Int)) (tot resultSize : Int) :
    Nat → List Int → List α → Except String (List α)
  | 0, _, acc => .ok acc
  | fuel + 1, idx, acc =>
    if tot > 0 then
      let offset := dotProd idx strides
      if hge : offset ≥ (data.length : Int) then
        .error "source offset out of bounds during slice"
      else if h : offset < 0 then
        .error "panic: index out of range"
      else
        let acc' := acc ++ [data.get ⟨offset.toNat, by omega⟩]
        if fuel = 0 then .ok acc'
        else
          match odoInc idx ranges with
          | (true, _) => .ok (acc' ++ List.replicate fuel (0 : α))
          | (false, idx') => sliceLoop data strides ranges tot resultSize fuel idx' acc'
    else if resultSize > 0 then
      .error "attempting to create non-empty slice from an empty tensor"
    else
      if fuel = 0 then .ok acc
      else
        match odoInc idx ranges with
        | (true, _) => .ok (acc ++ List.replicate fuel (0 : α))
        | (false, idx') => sliceLoop data strides ranges tot resultSize fuel idx' acc

/-- The per-dimension validation loop of `GetSlice`
(`src/tensor/tensor.go:196-211`): dimension `i`'s size is 1 for a rank-0
tensor at `i = 0`, otherwise `shape[i]`; a range with `lo < 0`,
`hi > size` or `lo > hi` is an error; on success the list of widths
(`newSliceShape`) is returned. -/
def validateRanges (shape : List Int) : Nat → List (Int × Int) → Except String (List Int)
  | _, [] => .ok []
  | i, r :: rs =>
    let cds? : Except String Int :=
      if shape = [] ∧ i = 0 then .ok 1
      else
        match shape.get? i with
        | some d => .ok d
        | none => .error "internal error: trying to access shape dimension out of bounds"
    match cds? with
    | .error e => .error e
    | .ok cds =>
      if r.1 < 0 ∨ r.2 > cds ∨ r.1 > r.2 then
        .error "invalid slice range for dimension"
      else
        match validateRanges shape (i + 1) rs with
        | .error e => .error e
        | .ok tl => .ok ((r.2 - r.1) :: tl)

/-- `GetSlice` after the empty-tensor pre-check
(`src/tensor/tensor.go:189-277`): rank check with its two tolerated
exceptions, per-dimension validation, the zero-size and scalar short
cuts, and the main copy loop. -/
def getSliceMain {α : Type} [Zero α] (t : Tensor α) (ranges : List (Int × Int)) :
    Except String (List α) :=
  let tot := totalElems t.shape
  if ranges.length ≠ t.shape.length ∧
      ¬ (t.shape = [] ∧ ranges = [((0 : Int), (1 : Int))]) ∧
      ¬ (t.shape = [1] ∧ ranges = [((0 : Int), (1 : Int))]) then
    .error "slice ranges length does not match tensor dimensions"
  else
    match validateRanges t.shape 0 ranges with
    | .error e => .error e
    | .ok newSliceShape =>
      let resultSize := totalElems newSliceShape
      if resultSize = 0 then .ok []
      else if tot = 1 ∧ t.shape.length ≤ 1 ∧ resultSize = 1 then
        match t.data with
        | x :: _ => .ok [x]
        | [] => .error "inconsistent scalar tensor state: expected 1 element but data is empty"
      else
        let idx := (ranges.take t.shape.length).map Prod.fst
        sliceLoop t.data t.strides ranges tot resultSize resultSize.toNat idx []

/-- `GetSlice` (`src/tensor/tensor.go:175-277`).  The leading
empty-tensor check (lines 176-187) fires when the tensor has zero total
elements, the range list is non-empty and its first range has positive
width; it then errors unless every range has non-positive width
(impossible given the guard, but translated faithfully). -/
def getSlice {α : Type} [Zero α] (t : Tensor α) (ranges : List (Int × Int)) :
    Except String (List α) :=
  let tot := totalElems t.shape
  if tot = 0 ∧ ranges ≠ [] ∧ (ranges.headD (0, 0)).2 - (ranges.headD (0, 0)).1 > 0 then
    if ¬ (ranges.all fun r => r.2 - r.1 ≤ 0) then
      .error "cannot get a non-empty slice from an empty tensor"
    else getSliceMain t ranges
  else getSliceMain t ranges

/-! ## GetDataForInference (tensor.go:279-400) -/

/-- `int(math.Ceil(float64 t / float64 s))` as used with `t ≥ 0 < s` at
`src/tensor/tensor.go:351`; exact integer ceiling division (the float
detour is exact for the magnitudes in scope). -/
def mathCeilDiv (t s : Int) : Int := (t + s - 1) / s

/-- `GetDataForInference` (`src/tensor/tensor.go:279-400`).  The Go
parameter `ranges [][][2]int` is consulted only through `ranges[0]`
guarded by `len(ranges) > 0 && ranges[0] != nil`, modelled by an
`Option`. -/
def getDataForInference {α : Type} [Zero α] (t : Tensor α)
    (ranges : Option (List (Int × Int))) (batchSize : Int) :
    Except String (List (TensorDataWithMetadata α)) :=
  let sel : Except String (List α × List Int × List Int) :=
    match ranges with
    | some rs =>
      if rs.length ≠ t.shape.length ∧ ¬ (t.shape = [] ∧ rs = [((0 : Int), (1 : Int))]) then
        .error "slice ranges length does not match tensor dimensions"
      else
        match getSlice t rs with
        | .error e => .error ("failed to get slice: " ++ e)
        | .ok d =>
          let currentShape := rs.map (fun r => r.2 - r.1)
          .ok (d, currentShape, computeStridesNew currentShape)
    | none => .ok (t.data, t.shape, t.strides)
  match sel with
  | .error e => .error e
  | .ok (dataToProcess, currentShape, currentStrides) =>
    let T := totalElems currentShape
    match getElementSize t.dataType with
    | .error e => .error e
    | .ok elementSize =>
      if batchSize ≤ 0 ∨ T = 0 then
        .ok [{ name := t.name, shape := currentShape,
               numDimensions := (currentShape.length : Int), dataType := t.dataType,
               totalElements := T, dataSizeBytes := T * elementSize,
               strides := currentStrides, batchInfo := none, data := dataToProcess }]
      else
        let numBatches0 := mathCeilDiv T batchSize
        let numBatches :=
          if numBatches0 = 0 ∧ T > 0 then 1
          else if T = 0 then (if batchSize > 0 then 1 else 0)
          else numBatches0
        if numBatches = 0 ∧ T = 0 ∧ batchSize > 0 then
          .ok [{ name := t.name, shape := currentShape,
                 numDimensions := (currentShape.length : Int), dataType := t.dataType,
                 totalElements := 0, dataSizeBytes := 0, strides := currentStrides,
                 batchInfo := some ⟨batchSize, 1, 0⟩, data := [] }]
        else
          .ok ((List.range numBatches.toNat).map fun (i : Nat) =>
            let start := (i : Int) * batchSize
            let e := min (start + batchSize) T
            let batchData : List α :=
              if start ≥ e then []
              else (dataToProcess.drop start.toNat).take (e - start).toNat
            let actualBatchSize := if start ≥ e then 0 else e - start
            { name := t.name, shape := currentShape,
              numDimensions := (currentShape.length : Int), dataType := t.dataType,
              totalElements := T, dataSizeBytes := actualBatchSize * elementSize,
              strides := currentStrides,
              batchInfo := some ⟨batchSize, numBatches, (i : Int)⟩, data := batchData })

/-! ## Byte-level string helpers (storage.go)

The storage layer manipulates file contents as `List Char` so that the
splitting/joining functions below can be reasoned about by induction. -/

/-- Go `strings.Split(s, sep)` for a one-character separator. -/
def splitOnChar (c : Char) : List Char → List (List Char)
  | [] => [[]]
  | x :: xs =>
    let r := splitOnChar c xs
    if x = c then [] :: r
    else
      match r with
      | [] => [[x]]
      | y :: ys => (x :: y) :: ys

/-- Drop leading whitespace (the left half of Go `strings.TrimSpace`). -/
def trimLeft : List Char → List Char
  | [] => []
  | x :: xs => if x.isWhitespace then trimLeft xs else x :: xs

/-- Go `strings.TrimSpace` (ASCII whitespace suffices for the metadata
format in scope). -/
def trimChars (s : List Char) : List Char :=
  ((trimLeft s).reverse |> trimLeft).reverse

/-- Go `strings.SplitN(s, sep, 2)` for a one-character separator: one
part when the separator is absent, otherwise the prefix and the whole
remainder. -/
def splitN2 (c : Char) : List Char → List (List Char)
  | [] => [[]]
  | x :: xs =>
    if x = c then [[], xs]
    else
      match splitN2 c xs with
      | [] => [[x]]
      | y :: ys => (x :: y) :: ys

/-- Decimal digit run to a natural number; `none` if empty or any
non-digit is present. -/
def parseNatDigits (s : List Char) : Option Nat :=
  if s = [] then none
  else if s.all Char.isDigit then
    some (s.foldl (fun acc ch => acc * 10 + (ch.toNat - 48)) 0)
  else none

def int64Min : Int := -(2 ^ 63)
def int64Max : Int := 2 ^ 63 - 1

/-- Go `strconv.Atoi`: optional sign, decimal digits, 64-bit range
check. -/
def goAtoi (s : List Char) : Option Int :=
  match s with
  | [] => none
  | c :: rest =>
    if c = '+' then
      (parseNatDigits rest).bind fun n =>
        if (n : Int) ≤ int64Max then some (n : Int) else none
    else if c = '-' then
      (parseNatDigits rest).bind fun n =>
        if int64Min ≤ -(n : Int) then some (-(n : Int)) else none
    else
      (parseNatDigits (c :: rest)).bind fun n =>
        if (n : Int) ≤ int64Max then some (n : Int) else none

/-- Decimal digits of `n`, most significant first, with structural fuel
(so that the kernel can evaluate it); `fuel ≥ n` suffices. -/
def natToCharsAux : Nat → Nat → List Char
  | 0, _ => []
  | fuel + 1, n =>
    if n = 0 then []
    else natToCharsAux fuel (n / 10) ++ [Nat.digitChar (n % 10)]

/-- Go `strconv.Itoa` for a natural number (most significant digit
first). -/
def natToChars (n : Nat) : List Char :=
  if n = 0 then ['0'] else natToCharsAux (n + 1) n

/-- Go `strconv.Itoa`. -/
def intToChars (i : Int) : List Char :=
  if i < 0 then '-' :: natToChars (-i).toNat else natToChars i.toNat

/-- `intSliceToString` (`src/pkg/tensor/storage.go:604-613`): decimal
entries joined by commas; the empty slice encodes as the empty string. -/
def intSliceToChars (slice : List Int) : List Char :=
  List.intercalate [','] (slice.map intToChars)

/-- The metadata file content written by `SaveTensor`
(`src/pkg/tensor/storage.go:389-390`). -/
def metaContentChars (name : String) (shape : List Int) (dataType : String)
    (strides : List Int) : List Char :=
  ("name:" ++ name ++ "\nshape:" ++ String.mk (intSliceToChars shape) ++
    "\ndatatype:" ++ dataType ++ "\nstrides:" ++
    String.mk (intSliceToChars strides) ++ "\n").data

/-- The per-part loop of `parseIntSlice`
(`src/pkg/tensor/storage.go:622-637`).  `partsLen` and `sIsZero` carry
the loop-invariant values `len(parts)` and `s == "0"` consulted by the
empty-part checks. -/
def parseIntSliceParts (partsLen : Nat) (sIsZero : Bool) :
    List (List Char) → Except String (List Int)
  | [] => .ok []
  | p :: ps =>
    let tp := trimChars p
    if tp = [] ∧ partsLen = 1 ∧ ¬ sIsZero then
      .error "empty dimension string part"
    else if tp = [] ∧ partsLen > 1 then
      .error "empty dimension string part"
    else
      match goAtoi tp with
      | none => .error "error parsing as int in shape string"
      | some v =>
        match parseIntSliceParts partsLen sIsZero ps with
        | .error e => .error e
        | .ok tl => .ok (v :: tl)

/-- `parseIntSlice` (`src/pkg/tensor/storage.go:615-639`): trims, maps
the empty string to the empty slice, otherwise splits on commas and
parses each part. -/
def parseIntSlice (s0 : List Char) : Except String (List Int) :=
  let s := trimChars s0
  if s = [] then .ok []
  else
    let parts := splitOnChar ',' s
    parseIntSliceParts parts.length (s = ['0']) parts

/-! ## Metadata files (storage.go) -/

/-- `TensorMetadata` (`src/pkg/tensor/storage.go:18-24`), after a
successful load (all fields resolved). -/
structure TensorMetadata where
  name : String
  shape : List Int
  dataType : String
  strides : List Int
  deriving Repr, DecidableEq

/-- The partially-filled metadata record built up by the line loop of
`loadTensorMetadataInternal`; `none` models Go's nil slices and `[]`
models the empty name. -/
structure MetaParseState where
  name : List Char
  shape : Option (List Int)
  dataType : List Char
  strides : Option (List Int)
  deriving Repr, DecidableEq

/-- The key of a metadata line as the line loop extracts it: the text
before the first `:`, trimmed. -/
def metaKey (line : List Char) : List Char :=
  trimChars ((splitN2 ':' line).headD [])

/-- One iteration of the line loop of `loadTensorMetadataInternal`
(`src/pkg/tensor/storage.go:274-302`): skip empty lines, split at the
first `:`, trim key and value, dispatch on the key (unknown keys are
ignored). -/
def processMetaLine (st : MetaParseState) (line : List Char) :
    Except String MetaParseState :=
  if line = [] then .ok st
  else
    match splitN2 ':' line with
    | [k, v] =>
      let key := trimChars k
      let value := trimChars v
      if key = "name".data then .ok { st with name := value }
      else if key = "shape".data then
        match parseIntSlice value with
        | .error e => .error ("invalid shape in metadata: " ++ e)
        | .ok sh => .ok { st with shape := some sh }
      else if key = "datatype".data then
        match getElementSize (String.mk value) with
        | .error e => .error ("unsupported data type in metadata: " ++ e)
        | .ok _ => .ok { st with dataType := value }
      else if key = "strides".data then
        match parseIntSlice value with
        | .error e => .error ("invalid strides in metadata: " ++ e)
        | .ok sv => .ok { st with strides := some sv }
      else .ok st
    | _ => .error "invalid metadata format"

def processMetaLines : MetaParseState → List (List Char) → Except String MetaParseState
  | st, [] => .ok st
  | st, l :: ls =>
    match processMetaLine st l with
    | .error e => .error e
    | .ok st' => processMetaLines st' ls

/-- `loadTensorMetadataInternal` (`src/pkg/tensor/storage.go:263-342`),
with the file read abstracted away: `fallbackName` is
`strings.TrimSuffix(filepath.Base(path), ".meta")` and `content` is the
file's bytes.  After the line loop: an empty name falls back to the file
name; missing shape, datatype or (fallback) name is fatal; missing
strides are recomputed (`computeStridesLoad`). -/
def loadTensorMetadataInternal (fallbackName : String) (content : List Char) :
    Except String TensorMetadata :=
  match processMetaLines ⟨[], none, [], none⟩ (splitOnChar '\n' content) with
  | .error e => .error e
  | .ok st =>
    let nm := if st.name = [] then fallbackName.data else st.name
    if st.shape = none ∨ st.dataType = [] ∨ nm = [] then
      .error "incomplete metadata (name, shape, or datatype missing)"
    else
      let shape := st.shape.getD []
      let strides :=
        match st.strides with
        | some sv => sv
        | none => computeStridesLoad shape
      .ok ⟨String.mk nm, shape, String.mk st.dataType, strides⟩

/-! ## In-memory index (storage.go:26-239) -/

/-- Lookup in an association list, modelling a Go map read. -/
def assocFind {κ ν : Type} [DecidableEq κ] (m : List (κ × ν)) (k : κ) : Option ν :=
  (m.find? (fun p => p.1 = k)).map Prod.snd

/-- Write to an association list, modelling a Go map write (maps are
unordered, so any representation with the update/lookup semantics is a
faithful model: the new binding shadows and removes any previous binding
for the key). -/
def assocSet {κ ν : Type} [DecidableEq κ] (m : List (κ × ν)) (k : κ) (v : ν) :
    List (κ × ν) :=
  (k, v) :: m.filter (fun q => q.1 ≠ k)

/-- Insertion into a Go `map[string]struct{}` set. -/
def setInsert (s : List String) (x : String) : List String :=
  if x ∈ s then s else s ++ [x]

/-- `InMemoryIndex` (`src/pkg/tensor/storage.go:27-38`): the two
secondary maps (the lock is not modelled). -/
structure InMemoryIndex where
  byDataType : List (String × List String)
  byNumDimensions : List (Int × List String)
  deriving Repr, DecidableEq

def emptyIndex : InMemoryIndex := ⟨[], []⟩

/-- The rank under which `InMemoryIndex.Add`/`Remove` index a shape
(`src/pkg/tensor/storage.go:60-66`): `len(shape)`, except that the
single-element shape `[0]` (a legacy scalar encoding) and the empty
shape are both indexed under rank 0. -/
def indexRank (shape : List Int) : Int :=
  let n1 : Int := (shape.length : Int)
  let n2 : Int := if shape.length = 1 ∧ shape.headD 0 = 0 then 0 else n1
  if shape.length = 0 then 0 else n2

/-- `InMemoryIndex.Add` (`src/pkg/tensor/storage.go:51-81`). -/
def indexAdd (idx : InMemoryIndex) (metadata : TensorMetadata) : InMemoryIndex :=
  let nd := indexRank metadata.shape
  let dtSet := (assocFind idx.byDataType metadata.dataType).getD []
  let ndSet := (assocFind idx.byNumDimensions nd).getD []
  { byDataType := assocSet idx.byDataType metadata.dataType (setInsert dtSet metadata.name),
    byNumDimensions := assocSet idx.byNumDimensions nd (setInsert ndSet metadata.name) }

/-- The no-filter result of `InMemoryIndex.Query`
(`src/pkg/tensor/storage.go:143-156`): all names occurring in
`ByDataType`, deduplicated (Go collects them into a set; the iteration
order of a Go map is unspecified, so all index-query claims are read up
to set equality). -/
def indexAllNames (idx : InMemoryIndex) : List String :=
  idx.byDataType.foldl (fun acc p => p.2.foldl (fun acc2 n => setInsert acc2 n) acc) []

/-- `InMemoryIndex.Query` (`src/pkg/tensor/storage.go:120-183`).
`filterNumDimensions = -1` means "no rank filter"; an active filter
whose key is absent short-circuits to the empty result; with both
filters active the smaller set is iterated and membership in the larger
is tested. -/
def indexQuery (idx : InMemoryIndex) (filterDataType : String)
    (filterNumDimensions : Int) : List String :=
  if filterDataType ≠ "" ∧ assocFind idx.byDataType filterDataType = none then []
  else if filterNumDimensions ≠ -1 ∧
      assocFind idx.byNumDimensions filterNumDimensions = none then []
  else
    let candidateSets : List (List String) :=
      (if filterDataType ≠ "" then [(assocFind idx.byDataType filterDataType).getD []]
       else []) ++
      (if filterNumDimensions ≠ -1 then
        [(assocFind idx.byNumDimensions filterNumDimensions).getD []]
       else [])
    match candidateSets with
    | [] => indexAllNames idx
    | [s] => s
    | [s1, s2] =>
      let smaller := if s1.length < s2.length then s1 else s2
      let larger := if s1.length < s2.length then s2 else s1
      smaller.filter (fun n => n ∈ larger)
    | _ => []

/-! ## The storage state (storage.go) -/

/-- The element buffer of a `.data` file, one variant per numeric kind
(Go monomorphizes over the four `Numeric` instantiations; float values
are modelled as rationals, the little-endian byte codec is not
modelled). -/
inductive TypedData where
  | f32 (xs : List Rat)
  | f64 (xs : List Rat)
  | i32 (xs : List Int)
  | i64 (xs : List Int)
  deriving Repr, DecidableEq

/-- The contents of the data directory together with the in-memory
index: `name ↦ <name>.meta` bytes and `name ↦ <name>.data` elements.
This replaces the file system of `Storage`
(`src/pkg/tensor/storage.go:241-260`). -/
structure Store where
  metaFiles : List (String × List Char)
  dataFiles : List (String × TypedData)
  index : InMemoryIndex
  deriving Repr, DecidableEq

/-- `Storage.LoadTensorMetadata` (`src/pkg/tensor/storage.go:476-479`):
a missing file is the not-found error (whose Go message starts with
`failed to read metadata`, which the executor's exists-checks test
for); otherwise the file content is parsed. -/
def loadTensorMetadata (s : Store) (name : String) : Except String TensorMetadata :=
  match assocFind s.metaFiles name with
  | none => .error ("failed to read metadata from " ++ name ++ ".meta")
  | some content => loadTensorMetadataInternal name content

/-- `SetData` (`src/tensor/tensor.go:157-173`). -/
def setData {α : Type} (t : Tensor α) (data : List α) : Except String (Tensor α) :=
  let expectedElements := totalElems t.shape
  if (data.length : Int) ≠ expectedElements then
    .error "data size does not match tensor size"
  else .ok { t with data := data }

/-- `SaveTensor` (`src/pkg/tensor/storage.go:346-474`).  Returns
`(error?, store)`: the store reflects the writes performed before a
failure, mirroring the on-disk order — the `.meta` file is written
first, then `os.Create` truncates the `.data` file to empty, then the
consistency checks run, then the elements are written.  The inner
`inconsistent state` error of lines 429-432 is dead code (its guard
contradicts the enclosing condition) and the mismatch path instead
proceeds with `numElements = len(t.Data)`. -/
def saveTensor {α : Type} (typeStrT : String) (wrap : List α → TypedData)
    (st : Store) (t : Tensor α) : Option String × Store :=
  if t.dataType ≠ typeStrT then
    (some "tensor DataType string does not match generic type T", st)
  else
    let strides :=
      if t.strides.length ≠ t.shape.length then computeStridesLoad t.shape
      else t.strides
    let metaContent := metaContentChars t.name t.shape t.dataType strides
    let st1 : Store := { st with metaFiles := assocSet st.metaFiles t.name metaContent }
    let st2 : Store := { st1 with dataFiles := assocSet st1.dataFiles t.name (wrap []) }
    match getElementSize t.dataType with
    | .error e => (some ("cannot save tensor: " ++ e), st2)
    | .ok elementSize =>
      let numElements := totalElems t.shape
      let numElements2 :=
        if (t.data.length : Int) ≠ numElements ∧ numElements > 0 then
          (t.data.length : Int)
        else numElements
      let dataSize := numElements2 * elementSize
      if dataSize = 0 then (none, st2)
      else if (t.data.length : Int) * elementSize ≠ dataSize then
        (some "data size mismatch during save", st2)
      else
        (none, { st2 with dataFiles := assocSet st2.dataFiles t.name (wrap t.data) })

/-- The zero-filled element buffer a fresh tensor of the given kind and
shape persists (spec §4.6 CREATE: "allocate an empty tensor of the
requested kind"). -/
def emptyBufferFor (dataType : String) (shape : List Int) : TypedData :=
  if dataType = DataTypeFloat32 then .f32 (List.replicate (totalElems shape).toNat 0)
  else if dataType = DataTypeFloat64 then .f64 (List.replicate (totalElems shape).toNat 0)
  else if dataType = DataTypeInt32 then .i32 (List.replicate (totalElems shape).toNat 0)
  else .i64 (List.replicate (totalElems shape).toNat 0)

/-! ## Literal parsing (executor, strconv) -/

/-- Go `strconv.ParseInt(s, 10, bits)`: optional sign, decimal digits,
range check for the given bit size. -/
def goParseIntLit (bits : Nat) (s : String) : Option Int :=
  let v? : Option Int :=
    match s.data with
    | '+' :: rest => (parseNatDigits rest).map (fun n => (n : Int))
    | '-' :: rest => (parseNatDigits rest).map (fun n => -(n : Int))
    | cs => (parseNatDigits cs).map (fun n => (n : Int))
  v?.bind fun v =>
    if -(2 ^ (bits - 1) : Int) ≤ v ∧ v ≤ (2 ^ (bits - 1) : Int) - 1 then some v
    else none

/-- Split a float literal at the first `e`/`E` into mantissa and
exponent part. -/
def splitExp : List Char → List Char × Option (List Char)
  | [] => ([], none)
  | c :: rest =>
    if c = 'e' ∨ c = 'E' then ([], some rest)
    else
      let p := splitExp rest
      (c :: p.1, p.2)

/-- The unsigned mantissa `digits [. digits]` / `. digits` of a Go float
literal, as an exact rational. -/
def parseMantissa (cs : List Char) : Option Rat :=
  let ip := cs.takeWhile Char.isDigit
  let rest := cs.dropWhile Char.isDigit
  match rest with
  | [] => if ip = [] then none else (parseNatDigits ip).map (fun n => (n : Rat))
  | '.' :: fp =>
    if ¬ fp.all Char.isDigit then none
    else if ip = [] ∧ fp = [] then none
    else
      let ipn := (parseNatDigits ip).getD 0
      let fpn := (parseNatDigits fp).getD 0
      some ((ipn : Rat) + (fpn : Rat) / ((10 : Rat) ^ fp.length))
  | _ => none

/-- Go `strconv.ParseFloat` restricted to the decimal forms used by the
query surface (`[sign] digits [. digits] [e|E [sign] digits]`); the
special `Inf`/`NaN`/hexadecimal spellings and the out-of-range error are
not modelled, and the value is kept as an exact rational (rounding to
float32/float64 does not affect any claim in scope). -/
def goParseFloat (s : String) : Option Rat :=
  let body : List Char → Option Rat := fun cs =>
    let p := splitExp cs
    (parseMantissa p.1).bind fun mv =>
      match p.2 with
      | none => some mv
      | some ecs =>
        let ev? : Option Int :=
          match ecs with
          | '+' :: r => (parseNatDigits r).map (fun n => (n : Int))
          | '-' :: r => (parseNatDigits r).map (fun n => -(n : Int))
          | r => (parseNatDigits r).map (fun n => (n : Int))
        ev?.map (fun ev => mv * (10 : Rat) ^ ev)
  match s.data with
  | '+' :: rest => body rest
  | '-' :: rest => (body rest).map Neg.neg
  | cs => body cs

/-- Whether a literal parses in the given kind, exactly as the string
INSERT arms parse it (`strconv.ParseFloat` for the float kinds,
`strconv.ParseInt` with the kind's bit size for the integer kinds). -/
def literalParses (dataType : String) (lit : String) : Bool :=
  if dataType = DataTypeFloat32 then (goParseFloat lit).isSome
  else if dataType = DataTypeFloat64 then (goParseFloat lit).isSome
  else if dataType = DataTypeInt32 then (goParseIntLit 32 lit).isSome
  else if dataType = DataTypeInt64 then (goParseIntLit 64 lit).isSome
  else false

/-! ## Executor: CREATE and INSERT (part_002) -/

/-- One kind-specialized arm of the `CREATE TENSOR` switch
(`src/unnamed/part_002:236-275`): build the empty tensor, persist it,
and surface its metadata for indexing. -/
def createKind {α : Type} [Zero α] (typeStrT : String) (wrap : List α → TypedData)
    (st : Store) (tensorName : String) (shape : List Int) :
    Except String (String × TensorMetadata) × Store :=
  match (newTensor typeStrT tensorName shape typeStrT : Except String (Tensor α)) with
  | .error e => (.error e, st)
  | .ok ti =>
    match saveTensor typeStrT wrap st ti with
    | (some e, st') => (.error e, st')
    | (none, st') =>
      (.ok (typeStrT, ⟨ti.name, ti.shape, ti.dataType, ti.strides⟩), st')

/-- The `CreateTensorQuery` branch of `Executor.Execute`
(`src/unnamed/part_002:225-279`): loadable metadata means
already-exists; a load failure other than the not-found read error is
surfaced as a checking error; otherwise the kind switch runs, the index
is updated and the exact status string is returned. -/
def executeCreate (st : Store) (tensorName : String) (shape : List Int)
    (dataType : String) : Except String String × Store :=
  match loadTensorMetadata st tensorName with
  | .ok _ => (.error ("tensor '" ++ tensorName ++ "' already exists"), st)
  | .error e =>
    if ¬ ("failed to read metadata".data.isPrefixOf e.data) then
      (.error ("error checking existing tensor '" ++ tensorName ++ "': " ++ e), st)
    else
      let r : Except String (String × TensorMetadata) × Store :=
        if dataType = DataTypeFloat32 then
          createKind (α := Rat) DataTypeFloat32 TypedData.f32 st tensorName shape
        else if dataType = DataTypeFloat64 then
          createKind (α := Rat) DataTypeFloat64 TypedData.f64 st tensorName shape
        else if dataType = DataTypeInt32 then
          createKind (α := Int) DataTypeInt32 TypedData.i32 st tensorName shape
        else if dataType = DataTypeInt64 then
          createKind (α := Int) DataTypeInt64 TypedData.i64 st tensorName shape
        else (.error ("unsupported data type for CREATE TENSOR: " ++ dataType), st)
      match r with
      | (.error e, st') => (.error e, st')
      | (.ok (_, md), st') =>
        (.ok ("Tensor " ++ tensorName ++ " created with type " ++ dataType),
         { st' with index := indexAdd st'.index md })

/-- The first-failure literal loop of the string INSERT arms
(`src/unnamed/part_002:396-401` and its three siblings): parse every
literal, returning the offending literal on the first failure. -/
def parseAllLits {α : Type} (parseLit : String → Option α) :
    List String → Except String (List α)
  | [] => .ok []
  | l :: ls =>
    match parseLit l with
    | none => .error l
    | some v =>
      match parseAllLits parseLit ls with
      | .error e => .error e
      | .ok tl => .ok (v :: tl)

/-- One kind-specialized string-INSERT arm
(`src/unnamed/part_002:393-445`): parse all literals first; only on full
success build the replacement tensor and save it.  Go discards the
results of `NewTensor`/`SetData`/`SaveTensor` on this path: a failed
`NewTensor` would be a nil-pointer panic (modelled as an error), a
failed `SetData` leaves the zero-filled buffer, and a failed
`SaveTensor` still yields the success status over the partial store. -/
def insertKindString {α : Type} [Zero α] (typeStrT : String)
    (wrap : List α → TypedData) (parseLit : String → Option α) (status : String)
    (st : Store) (metadata : TensorMetadata) (literals : List String) :
    Except String String × Store :=
  match parseAllLits parseLit literals with
  | .error lit => (.error ("error parsing '" ++ lit ++ "' as " ++ typeStrT), st)
  | .ok typedData =>
    match (newTensor typeStrT metadata.name metadata.shape metadata.dataType :
        Except String (Tensor α)) with
    | .error e => (.error ("panic: nil tensor dereference (" ++ e ++ ")"), st)
    | .ok t0 =>
      let t1 := match setData t0 typedData with
        | .ok t1 => t1
        | .error _ => t0
      let p := saveTensor typeStrT wrap st t1
      (.ok status, p.2)

/-- The `InsertTensorQuery` branch of `Executor.Execute` for textual
literals (`src/unnamed/part_002:281-302` and `363-445`).  The binary
bulk channel (`query.RawData`, lines 304-361) is outside the modelled
surface: queries produced by the parser carry only textual literals. -/
def executeInsert (st : Store) (tensorName : String) (literals : List String) :
    Except String String × Store :=
  match loadTensorMetadata st tensorName with
  | .error e =>
    (.error ("tensor '" ++ tensorName ++ "' not found for insert: " ++ e), st)
  | .ok metadata =>
    let expectedElements := totalElems metadata.shape
    if literals.length = 0 ∧ expectedElements = 0 then
      let status := "Data inserted into " ++ tensorName ++ " (0 elements from string)"
      if metadata.dataType = DataTypeFloat32 then
        insertKindString (α := Rat) DataTypeFloat32 TypedData.f32 goParseFloat status
          st metadata literals
      else if metadata.dataType = DataTypeFloat64 then
        insertKindString (α := Rat) DataTypeFloat64 TypedData.f64 goParseFloat status
          st metadata literals
      else if metadata.dataType = DataTypeInt32 then
        insertKindString (α := Int) DataTypeInt32 TypedData.i32 (goParseIntLit 32) status
          st metadata literals
      else if metadata.dataType = DataTypeInt64 then
        insertKindString (α := Int) DataTypeInt64 TypedData.i64 (goParseIntLit 64) status
          st metadata literals
      else
        (.error ("unsupported data type '" ++ metadata.dataType ++
          "' for empty string insert"), st)
    else if (literals.length : Int) ≠ expectedElements then
      (.error ("string data provides " ++ toString literals.length ++
        " elements, but tensor requires a different count"), st)
    else
      let status := "String data inserted into " ++ tensorName
      if metadata.dataType = DataTypeFloat32 then
        insertKindString (α := Rat) DataTypeFloat32 TypedData.f32 goParseFloat status
          st metadata literals
      else if metadata.dataType = DataTypeFloat64 then
        insertKindString (α := Rat) DataTypeFloat64 TypedData.f64 goParseFloat status
          st metadata literals
      else if metadata.dataType = DataTypeInt32 then
        insertKindString (α := Int) DataTypeInt32 TypedData.i32 (goParseIntLit 32) status
          st metadata literals
      else if metadata.dataType = DataTypeInt64 then
        insertKindString (α := Int) DataTypeInt64 TypedData.i64 (goParseIntLit 64) status
          st metadata literals
      else
        (.error ("unsupported data type '" ++ metadata.dataType ++
          "' for string data insert"), st)

/-! ## Parser: the CREATE TENSOR branch (parser.go:96-178) -/

/-- `QueryType` (`src/tensor/tensor.go:614-624`). -/
inductive QueryType where
  | createTensor
  | insertTensor
  | selectTensor
  | getDataTensor
  | mathOperation
  | listTensors
  deriving Repr, DecidableEq

/-- The fields of `Query` (`src/tensor/tensor.go:627-645`) used by the
modelled branches (the binary `RawData` channel, slices and the math /
list fields are outside the modelled surface). -/
structure Query where
  type : QueryType
  tensorNames : List String := []
  shape : List Int := []
  dataType : String := ""
  data : List String := []
  batchSize : Int := 0
  deriving Repr, DecidableEq

/-- A character of the regex class `[a-zA-Z0-9_]`. -/
def isWordChar (c : Char) : Bool :=
  c.isAlphanum ∨ c = '_'

/-- Go `strings.ToLower` (ASCII), on the character list of a string. -/
def lowerStr (s : String) : String :=
  String.mk (s.data.map Char.toLower)

/-- Go `strings.TrimSpace` on a `String`. -/
def trimStr (s : String) : String :=
  String.mk (trimChars s.data)

/-- The effect of `createRegex = ^\s*(.*?)\s*(?:type\s+([a-zA-Z0-9_]+))?\s*$`
(case-insensitive, `src/pkg/tensor/parser.go:113`) on the remainder string
`strings.Join(partsOriginal[3:], " ")`, computed on the word list.  On a
single-space join of non-empty whitespace-free words the regex always
matches (so the `matches == nil` fallbacks at parser.go:116-119 and
156-171 are dead code), and the optional group matches exactly when
there are at least two words, the last word consists solely of word
characters, and the word before it ends in `type` case-insensitively:
the literal `type` must be followed by whitespace, and `([a-zA-Z0-9_]+)`
can neither span a space nor stop before the end of the string.  Group 1
is then everything before that `type` suffix, trimmed; otherwise group 1
is the whole remainder. -/
def createTypeClause (words : List String) : String × Option String :=
  if 2 ≤ words.length then
    let last := words.getLastD ""
    let prev := words.dropLast.getLastD ""
    if last ≠ "" ∧ last.data.all isWordChar ∧
        "type".data.isSuffixOf (lowerStr prev).data then
      let prevStripped := String.mk (prev.data.take (prev.data.length - 4))
      let group1 :=
        trimStr (String.intercalate " " (words.dropLast.dropLast ++ [prevStripped]))
      (group1, some last)
    else (trimStr (String.intercalate " " words), none)
  else (trimStr (String.intercalate " " words), none)

/-- The per-dimension loop of the shape parser
(`src/pkg/tensor/parser.go:132-147`). -/
def parseDims : List (List Char) → Except String (List Int)
  | [] => .ok []
  | dStr :: rest =>
    let trimmed := trimChars dStr
    if trimmed = [] then .error "invalid dimension: empty string found in shape"
    else
      match goAtoi trimmed with
      | none => .error "invalid dimension in shape"
      | some dim =>
        if dim < 0 then .error "invalid dimension: must be non-negative"
        else
          match parseDims rest with
          | .error e => .error e
          | .ok tl => .ok (dim :: tl)

/-- The shape part of the CREATE branch
(`src/pkg/tensor/parser.go:124-148`): the empty string is rank 0;
otherwise spaces are removed, the string is split on commas and each
part parsed as a non-negative integer. -/
def shapeOfStr (shapeStr : String) : Except String (List Int) :=
  if shapeStr = "" then .ok []
  else
    let noSpaces := shapeStr.data.filter (fun c => c ≠ ' ')
    let dims := splitOnChar ',' noSpaces
    if dims.length = 0 ∨ (dims.length = 1 ∧ trimChars (dims.headD []) = []) then .ok []
    else parseDims dims

/-- The `case "create"` branch of `Parser.Parse`
(`src/pkg/tensor/parser.go:96-178`), on the whitespace-split word list
of the query (`partsOriginal`); keyword comparisons use the lowercased
words.  The two ADD regexes and the LIST prefix tried before the switch
cannot match a query whose first word is `create`. -/
def parseCreate (partsOriginal : List String) : Except String Query :=
  let partsLower := partsOriginal.map lowerStr
  if partsLower.headD "" ≠ "create" then
    .error "unsupported query type or malformed query"
  else if partsLower.length < 3 ∨ partsLower.getD 1 "" ≠ "tensor" then
    .error "invalid CREATE TENSOR syntax"
  else
    let tensorName := partsOriginal.getD 2 ""
    let remaining := partsOriginal.drop 3
    let p := createTypeClause remaining
    match shapeOfStr p.1 with
    | .error e => .error e
    | .ok shape =>
      match p.2 with
      | some tw =>
        let dt := lowerStr (trimStr tw)
        match getElementSize dt with
        | .error e => .error ("invalid data type in CREATE TENSOR: " ++ e)
        | .ok _ =>
          .ok { type := .createTensor, tensorNames := [tensorName], shape := shape,
                dataType := dt }
      | none =>
        .ok { type := .createTensor, tensorNames := [tensorName], shape := shape,
              dataType := DataTypeFloat64 }

/-! ## Specification-side predicates (spec §4.2, §8; claims C5, C2) -/

/-- Well-formedness of a tensor value as `NewTensor` produces it and
`SetData` preserves it: non-negative dimensions, the canonical strides,
and a buffer of exactly `total_elements` elements. -/
def WFTensor {α : Type} (t : Tensor α) : Prop :=
  (∀ d ∈ t.shape, 0 ≤ d) ∧ t.strides = computeStridesNew t.shape ∧
    (t.data.length : Int) = totalElems t.shape

instance {α : Type} (t : Tensor α) : Decidable (WFTensor t) := by
  unfold WFTensor
  infer_instance

/-- The per-dimension size that the claim's constraint
`0 ≤ lo ≤ hi ≤ shape[i]` is checked against, including the claim's
rank-0 exception (dimension size 1). -/
def specDimSize (shape : List Int) (i : Nat) : Int :=
  if shape = [] ∧ i = 0 then 1 else shape.getD i 0

/-- Claim C5's bounds clause: some dimension violates
`0 ≤ lo ≤ hi ≤ shape[i]`. -/
def boundsViolation (shape : List Int) (ranges : List (Int × Int)) : Prop :=
  ∃ i : Fin ranges.length,
    (ranges.get i).1 < 0 ∨ (ranges.get i).2 > specDimSize shape (i : Nat) ∨
      (ranges.get i).1 > (ranges.get i).2

/-- Claim C5's rank clause: the number of ranges differs from the rank,
excluding the two tolerated exceptions. -/
def rankMismatch (shape : List Int) (ranges : List (Int × Int)) : Prop :=
  ranges.length ≠ shape.length ∧
    ¬ (shape = [] ∧ ranges = [((0 : Int), (1 : Int))]) ∧
    ¬ (shape = [1] ∧ ranges = [((0 : Int), (1 : Int))])

/-- The additional failure case the code has beyond the claim (the
empty-tensor pre-check of `src/tensor/tensor.go:176-187`): a tensor with
zero total elements rejects any range list whose *first* range has
positive width, even when all bounds are valid. -/
def emptySliceGuard (shape : List Int) (ranges : List (Int × Int)) : Prop :=
  totalElems shape = 0 ∧ ranges ≠ [] ∧
    (ranges.headD (0, 0)).2 - (ranges.headD (0, 0)).1 > 0

/-- The amended error condition of claim C5. -/
def sliceErrCond (shape : List Int) (ranges : List (Int × Int)) : Prop :=
  emptySliceGuard shape ranges ∨ rankMismatch shape ranges ∨ boundsViolation shape ranges

instance (shape : List Int) (ranges : List (Int × Int)) :
    Decidable (sliceErrCond shape ranges) := by
  unfold sliceErrCond emptySliceGuard rankMismatch boundsViolation specDimSize
  infer_instance

/-! ## Basic stride and shape lemmas -/

theorem stridesCore_length : ∀ shape : List Int, (stridesCore shape).length = shape.length
  | [] => rfl
  | [_] => rfl
  | _ :: d1 :: rest => by
    simp only [stridesCore, List.length_cons]
    rw [stridesCore_length (d1 :: rest)]
    simp

theorem specStrides_length : ∀ shape : List Int, (specStrides shape).length = shape.length
  | [] => rfl
  | [_] => rfl
  | _ :: d1 :: rest => by
    simp only [specStrides, List.length_cons]
    rw [specStrides_length (d1 :: rest)]
    simp

/-- On shapes with no zero dimension, the source recurrence and the
spec recurrence agree. -/
theorem stridesCore_eq_specStrides :
    ∀ shape : List Int, (∀ d ∈ shape, d ≠ 0) → stridesCore shape = specStrides shape
  | [], _ => rfl
  | [_], _ => rfl
  | d0 :: d1 :: rest, h => by
    have h1 : d1 ≠ 0 := h d1 (by simp)
    have ih : stridesCore (d1 :: rest) = specStrides (d1 :: rest) :=
      stridesCore_eq_specStrides (d1 :: rest) (fun d hd => h d (List.mem_cons_of_mem _ hd))
    simp only [stridesCore, specStrides, if_neg h1, ih]

theorem totalElems_pos_of_all_pos :
    ∀ shape : List Int, (∀ d ∈ shape, 0 < d) → 0 < totalElems shape
  | [], _ => by simp [totalElems]
  | d :: rest, h => by
    have hd : 0 < d := h d (by simp)
    have ih : 0 < totalElems rest := totalElems_pos_of_all_pos rest (fun x hx => h x (by simp [hx]))
    simp only [totalElems, if_neg (by omega : d ≠ 0)]
    exact mul_pos hd ih

theorem totalElems_eq_zero_of_mem_zero :
    ∀ shape : List Int, (0 : Int) ∈ shape → totalElems shape = 0
  | d :: rest, h => by
    by_cases hd : d = 0
    · simp [totalElems, hd]
    · have : (0 : Int) ∈ rest := by
        rcases List.mem_cons.mp h with h0 | h0
        · omega
        · exact h0
      simp [totalElems, hd, totalElems_eq_zero_of_mem_zero rest this]

/-! ## Claim C1: batching a zero-element selection -/

/-- C1 (counterexample).  The empty rank-1 tensor of shape `[0]` (exactly as
`NewTensor` builds it) batched with batch size 2 yields one envelope with an
empty data buffer whose `batch_info` is `null`, not `{2, 1, 0}` as the claim
requires: the `T == 0` case is captured by the `batchSize <= 0 ||
totalElementsInSelection == 0` branch of `GetDataForInference`
(`src/tensor/tensor.go:341-349`), which always sets `BatchInfo: nil`; the
branch that would emit `{S, 1, 0}` (lines 363-371) is unreachable. -/
theorem c1_counterexample :
    getDataForInference (⟨"e", [0], [], "int64", [0]⟩ : Tensor Int) none 2 =
      .ok [⟨"e", [0], 1, "int64", 0, 0, [0], none, []⟩] ∧
    (none : Option BatchInfo) ≠ some ⟨2, 1, 0⟩ := by
  exact ⟨by rfl, by decide⟩

/-- C1 (amended).  For every tensor whose selection has zero total elements
and every batch size `S > 0`, `get_data_for_inference` returns exactly one
envelope whose data buffer is empty and whose `batch_info` is `null` (not
`{S, 1, 0}`). -/
theorem c1_zero_selection_single_envelope {α : Type} [Zero α] (t : Tensor α)
    (S esz : Int)
    (hdt : getElementSize t.dataType = .ok esz)
    (hT : totalElems t.shape = 0)
    (hdata : t.data = [])
    (_hS : 0 < S) :
    getDataForInference t none S =
      .ok [⟨t.name, t.shape, (t.shape.length : Int), t.dataType, 0, 0,
            t.strides, none, []⟩] := by
  simp [getDataForInference, hdt, hT, hdata]

theorem c1_zero_selection_single_envelope_witness :
    getElementSize "int64" = .ok 8 ∧ totalElems [(0 : Int)] = 0 ∧ (0 : Int) < 3 ∧
    getDataForInference (⟨"e", [0], [], "int64", [0]⟩ : Tensor Int) none 3 =
      .ok [⟨"e", [0], 1, "int64", 0, 0, [0], none, []⟩] :=
  ⟨by rfl, by decide, by decide,
    c1_zero_selection_single_envelope (⟨"e", [0], [], "int64", [0]⟩ : Tensor Int)
      3 8 (by rfl) (by decide) rfl (by decide)⟩

/-! ## Claim C3: batching a positive selection -/

theorem mathCeilDiv_eq (T S : Int) (hS : S ≠ 0) :
    mathCeilDiv T S = (T - 1) / S + 1 := by
  unfold mathCeilDiv
  rw [show T + S - 1 = (T - 1) + 1 * S by ring, Int.add_mul_ediv_right _ _ hS]

theorem mathCeilDiv_pos {T S : Int} (hT : 0 < T) (hS : 0 < S) :
    0 < mathCeilDiv T S := by
  rw [mathCeilDiv_eq T S (by omega)]
  have h0 : 0 ≤ (T - 1) / S := Int.ediv_nonneg (by omega) (by omega)
  omega

theorem mul_lt_of_lt_mathCeilDiv {T S k : Int} (hS : 0 < S)
    (hk : k < mathCeilDiv T S) : k * S < T := by
  rw [mathCeilDiv_eq T S (by omega)] at hk
  have h1 : k ≤ (T - 1) / S := by omega
  have h2 : k * S ≤ (T - 1) / S * S := mul_le_mul_of_nonneg_right h1 hS.le
  have h3 : (T - 1) / S * S ≤ T - 1 := Int.ediv_mul_le _ (by omega)
  omega

theorem le_mathCeilDiv_mul {T S : Int} (hS : 0 < S) : T ≤ mathCeilDiv T S * S := by
  rw [mathCeilDiv_eq T S (by omega)]
  have := Int.lt_ediv_add_one_mul_self (T - 1) hS
  omega

/-- Concatenating the first `n` contiguous windows of stride `SN` of a list
recovers its prefix of length `min (n * SN) L.length`. -/
theorem joinWindows {α : Type} (L : List α) (SN : Nat) :
    ∀ n : Nat,
      ((List.range n).map
        (fun k => (L.drop (k * SN)).take (min ((k + 1) * SN) L.length - k * SN))).flatten
        = L.take (min (n * SN) L.length)
  | 0 => by simp
  | n + 1 => by
    rw [List.range_succ, List.map_append, List.flatten_append, joinWindows L SN n]
    simp only [List.map_cons, List.map_nil, List.flatten_cons, List.flatten_nil,
      List.append_nil]
    by_cases hcase : L.length ≤ n * SN
    · rw [List.drop_eq_nil_of_le hcase]
      have h1 : n * SN ≤ (n + 1) * SN := Nat.mul_le_mul_right _ (by omega)
      rw [min_eq_right hcase, min_eq_right (le_trans hcase h1)]
      simp
    · push_neg at hcase
      rw [min_eq_left hcase.le, ← List.take_add]
      congr 1
      rw [Nat.succ_mul]
      omega

/-- In the `T > 0`, `S > 0` case, `GetDataForInference` with no ranges
returns exactly the batch-loop envelopes of `src/tensor/tensor.go:373-399`,
`⌈T / S⌉` of them. -/
theorem getDataForInference_pos {α : Type} [Zero α] (t : Tensor α) (S esz : Int)
    (hdt : getElementSize t.dataType = .ok esz)
    (hT : 0 < totalElems t.shape) (hS : 0 < S) :
    getDataForInference t none S =
      .ok ((List.range (mathCeilDiv (totalElems t.shape) S).toNat).map fun (i : Nat) =>
        let start := (i : Int) * S
        let e := min (start + S) (totalElems t.shape)
        ⟨t.name, t.shape, (t.shape.length : Int), t.dataType, totalElems t.shape,
         (if start ≥ e then 0 else e - start) * esz, t.strides,
         some ⟨S, mathCeilDiv (totalElems t.shape) S, (i : Int)⟩,
         if start ≥ e then []
         else (t.data.drop start.toNat).take (e - start).toNat⟩) := by
  have hnb : 0 < mathCeilDiv (totalElems t.shape) S := mathCeilDiv_pos hT hS
  simp only [getDataForInference, hdt]
  rw [if_neg (by omega : ¬ (S ≤ 0 ∨ totalElems t.shape = 0))]
  have hnbexp :
      (if mathCeilDiv (totalElems t.shape) S = 0 ∧ totalElems t.shape > 0 then (1 : Int)
        else if totalElems t.shape = 0 then (if S > 0 then 1 else 0)
        else mathCeilDiv (totalElems t.shape) S) = mathCeilDiv (totalElems t.shape) S := by
    rw [if_neg (by omega), if_neg (by omega)]
  rw [hnbexp]
  rw [if_neg (by omega :
    ¬ (mathCeilDiv (totalElems t.shape) S = 0 ∧ totalElems t.shape = 0 ∧ S > 0))]

/-- C3.  For a selection with `T > 0` total elements and batch size `S > 0`,
`get_data_for_inference` returns exactly `⌈T / S⌉` envelopes; envelope `k`
carries the contiguous window `[k*S, min((k+1)*S, T))` of the selection with
`batch_info = {S, ⌈T/S⌉, k}` and `data_size_bytes` equal to the window length
times the element size, and the concatenation of all envelope data buffers in
index order is the unbatched selection's data. -/
theorem c3_batching {α : Type} [Zero α] (t : Tensor α) (S esz : Int)
    (hdt : getElementSize t.dataType = .ok esz)
    (hT : 0 < totalElems t.shape)
    (hlen : (t.data.length : Int) = totalElems t.shape)
    (hS : 0 < S) :
    ∃ envs : List (TensorDataWithMetadata α),
      getDataForInference t none S = .ok envs ∧
      (envs.length : Int) = mathCeilDiv (totalElems t.shape) S ∧
      (∀ k : Fin envs.length,
        envs.get k =
          ⟨t.name, t.shape, (t.shape.length : Int), t.dataType, totalElems t.shape,
           (min (((k : Nat) : Int) * S + S) (totalElems t.shape) - ((k : Nat) : Int) * S) * esz,
           t.strides,
           some ⟨S, mathCeilDiv (totalElems t.shape) S, ((k : Nat) : Int)⟩,
           (t.data.drop (((k : Nat) : Int) * S).toNat).take
             (min (((k : Nat) : Int) * S + S) (totalElems t.shape) -
               ((k : Nat) : Int) * S).toNat⟩) ∧
      (envs.map (fun e => e.data)).flatten = t.data := by
  have hnb : 0 < mathCeilDiv (totalElems t.shape) S := mathCeilDiv_pos hT hS
  refine ⟨_, getDataForInference_pos t S esz hdt hT hS, ?_, ?_, ?_⟩
  · simp only [List.length_map, List.length_range]
    exact Int.toNat_of_nonneg hnb.le
  · intro k
    have hklt : (k : Nat) < (mathCeilDiv (totalElems t.shape) S).toNat := by
      have := k.isLt
      simpa using this
    have hkI : ((k : Nat) : Int) < mathCeilDiv (totalElems t.shape) S := by
      omega
    have hstart : ((k : Nat) : Int) * S < totalElems t.shape :=
      mul_lt_of_lt_mathCeilDiv hS hkI
    have hlt : ((k : Nat) : Int) * S < min (((k : Nat) : Int) * S + S) (totalElems t.shape) :=
      lt_min (by omega) hstart
    simp only [List.get_eq_getElem, List.getElem_map, List.getElem_range]
    rw [if_neg (by omega), if_neg (by omega)]
  · have hjoin :
        (((List.range (mathCeilDiv (totalElems t.shape) S).toNat).map fun (i : Nat) =>
          let start := (i : Int) * S
          let e := min (start + S) (totalElems t.shape)
          (⟨t.name, t.shape, (t.shape.length : Int), t.dataType, totalElems t.shape,
            (if start ≥ e then 0 else e - start) * esz, t.strides,
            some ⟨S, mathCeilDiv (totalElems t.shape) S, (i : Int)⟩,
            if start ≥ e then []
            else (t.data.drop start.toNat).take (e - start).toNat⟩ :
              TensorDataWithMetadata α)).map (fun e => e.data)).flatten = t.data := by
      rw [List.map_map]
      have hmap :
          ((List.range (mathCeilDiv (totalElems t.shape) S).toNat).map
            ((fun (e : TensorDataWithMetadata α) => e.data) ∘ fun (i : Nat) =>
              let start := (i : Int) * S
              let e := min (start + S) (totalElems t.shape)
              (⟨t.name, t.shape, (t.shape.length : Int), t.dataType, totalElems t.shape,
                (if start ≥ e then 0 else e - start) * esz, t.strides,
                some ⟨S, mathCeilDiv (totalElems t.shape) S, (i : Int)⟩,
                if start ≥ e then []
                else (t.data.drop start.toNat).take (e - start).toNat⟩ :
                  TensorDataWithMetadata α))) =
          ((List.range (mathCeilDiv (totalElems t.shape) S).toNat).map fun (i : Nat) =>
            (t.data.drop (i * S.toNat)).take
              (min ((i + 1) * S.toNat) t.data.length - i * S.toNat)) := by
        apply List.map_congr_left
        intro i hi
        have hilt : i < (mathCeilDiv (totalElems t.shape) S).toNat := List.mem_range.mp hi
        have hiI : ((i : Nat) : Int) < mathCeilDiv (totalElems t.shape) S := by omega
        have hstart : ((i : Nat) : Int) * S < totalElems t.shape :=
          mul_lt_of_lt_mathCeilDiv hS hiI
        have hlt : ((i : Nat) : Int) * S < min (((i : Nat) : Int) * S + S) (totalElems t.shape) :=
          lt_min (by omega) hstart
        simp only [Function.comp_apply]
        rw [if_neg (by omega)]
        set SN := S.toNat with hSNdef
        have hS' : S = (SN : Int) := (Int.toNat_of_nonneg hS.le).symm
        set a := i * SN with hadef
        have haI : ((i : Nat) : Int) * S = (a : Int) := by
          rw [hS', hadef]; push_cast; ring
        have h1 : (((i : Nat) : Int) * S).toNat = a := by rw [haI, Int.toNat_natCast]
        have hbI : ((i + 1) * SN : Nat) = a + SN := by rw [hadef]; ring
        have h2 : (min (((i : Nat) : Int) * S + S) (totalElems t.shape)
            - ((i : Nat) : Int) * S).toNat = min ((i + 1) * SN) t.data.length - a := by
          rw [haI, hS', ← hlen, hbI]
          omega
        rw [h2, h1]
      rw [hmap, joinWindows]
      have hge : (t.data.length : Int) ≤ mathCeilDiv (totalElems t.shape) S * S := by
        rw [hlen]; exact le_mathCeilDiv_mul hS
      have hSN : ((S.toNat : Nat) : Int) = S := Int.toNat_of_nonneg hS.le
      have hmin : min ((mathCeilDiv (totalElems t.shape) S).toNat * S.toNat)
          t.data.length = t.data.length := by
        apply min_eq_right
        have : ((((mathCeilDiv (totalElems t.shape) S).toNat * S.toNat : Nat)) : Int) =
            mathCeilDiv (totalElems t.shape) S * S := by
          push_cast [hSN, Int.toNat_of_nonneg hnb.le]
          ring
        omega
      rw [hmin, List.take_length]
    exact hjoin

/-! ## Claim C2: the stride invariant -/

theorem prodBeforeZero_pos : ∀ shape : List Int, (∀ d ∈ shape, 0 ≤ d) →
    0 < prodBeforeZero shape
  | [], _ => by simp [prodBeforeZero]
  | d :: rest, h => by
    by_cases hd : d = 0
    · simp [prodBeforeZero, hd]
    · have h0 : 0 ≤ d := h d (by simp)
      have ih := prodBeforeZero_pos rest (fun x hx => h x (by simp [hx]))
      simp only [prodBeforeZero, if_neg hd]
      exact mul_pos (by omega) ih

/-- C2 (counterexample).  A metadata file for the zero-dimension shape
`[0]` with no `strides` key: the load path recomputes `strides = [1]`
(the guard at `src/pkg/tensor/storage.go:323` passes because its
`totalElements` is the product of the dimensions before the first zero,
here the empty product 1, and the recurrence then writes the trailing
stride 1), while `NewTensor` with the same shape produces `[0]`.  The
claim's "every stride entry is 0" therefore fails for the recompute
path. -/
theorem c2_counterexample :
    loadTensorMetadataInternal "t" "name:t\nshape:0\ndatatype:float64\n".data =
      .ok ⟨"t", [0], "float64", [1]⟩ ∧
    computeStridesNew [0] = [0] ∧ ([1] : List Int) ≠ [0] := by
  exact ⟨by rfl, by decide, by decide⟩

/-- C2 (amended).  For every shape with non-negative dimensions: the
strides computed at construction satisfy the claim's invariant (empty
for rank 0, the spec recurrence for a positive shape, all zeros for a
shape with a zero dimension); the strides recomputed on load agree on
the first two cases but, for a shape containing a zero dimension, they
follow the recurrence with `strides[i] = 0` when `shape[i+1] = 0` and
`strides[rank-1] = 1` — they are not all zero. -/
theorem c2_strides_invariant (shape : List Int) (hpos : ∀ d ∈ shape, 0 ≤ d) :
    (shape = [] → computeStridesNew shape = [] ∧ computeStridesLoad shape = []) ∧
    (shape ≠ [] → (0 : Int) ∉ shape →
      computeStridesNew shape = specStrides shape ∧
      computeStridesLoad shape = specStrides shape) ∧
    ((0 : Int) ∈ shape →
      computeStridesNew shape = List.replicate shape.length 0 ∧
      computeStridesLoad shape = stridesCore shape) := by
  refine ⟨?_, ?_, ?_⟩
  · rintro rfl
    exact ⟨by simp [computeStridesNew], by simp [computeStridesLoad]⟩
  · intro hne hz
    have hnz : ∀ d ∈ shape, d ≠ 0 := fun d hd h0 => hz (h0 ▸ hd)
    have hallpos : ∀ d ∈ shape, 0 < d := fun d hd =>
      lt_of_le_of_ne (hpos d hd) (Ne.symm (hnz d hd))
    have hT : 0 < totalElems shape := totalElems_pos_of_all_pos shape hallpos
    have hlen : shape.length > 0 := List.length_pos.mpr hne
    have hsc := stridesCore_eq_specStrides shape hnz
    constructor
    · simp only [computeStridesNew, if_pos (And.intro hlen hT), hsc]
    · have hzb : hasZeroDim shape = false := by
        simp only [hasZeroDim, List.any_eq_false, decide_eq_true_eq]
        exact hnz
      simp only [computeStridesLoad, if_pos hlen]
      rw [if_pos (Or.inr ⟨hlen, by simp [hzb]⟩), hsc]
  · intro hmem
    have hT : totalElems shape = 0 := totalElems_eq_zero_of_mem_zero shape hmem
    have hne : shape ≠ [] := by rintro rfl; simp at hmem
    have hlen : shape.length > 0 := List.length_pos.mpr hne
    constructor
    · simp only [computeStridesNew, hT]
      rw [if_neg (by omega)]
    · have hp := prodBeforeZero_pos shape hpos
      simp only [computeStridesLoad, if_pos hlen]
      rw [if_pos (Or.inl hp)]

theorem c2_strides_invariant_witness :
    (∀ d ∈ [(2 : Int), 0, 3], 0 ≤ d) ∧
    (computeStridesNew [2, 0, 3] = List.replicate 3 0 ∧
      computeStridesLoad [2, 0, 3] = stridesCore [2, 0, 3]) :=
  ⟨by decide, (c2_strides_invariant [2, 0, 3] (by decide)).2.2 (by decide)⟩

/-! ## Claim C4: fatal metadata keys -/

theorem processMetaLine_shape_eq (st st' : MetaParseState) (l : List Char)
    (hk : metaKey l ≠ "shape".data) (h : processMetaLine st l = .ok st') :
    st'.shape = st.shape := by
  by_cases hl : l = []
  · simp only [processMetaLine, if_pos hl] at h
    cases h
    rfl
  · simp only [processMetaLine, if_neg hl] at h
    unfold metaKey at hk
    split at h
    · rename_i k v heq
      rw [heq] at hk
      simp only [List.headD] at hk
      split_ifs at h with h1 h2 h3
      · cases h; rfl
      · split at h
        · cases h
        · cases h; rfl
      · split at h
        · cases h
        · cases h; rfl
      · cases h; rfl
    · cases h

theorem processMetaLine_dataType_eq (st st' : MetaParseState) (l : List Char)
    (hk : metaKey l ≠ "datatype".data) (h : processMetaLine st l = .ok st') :
    st'.dataType = st.dataType := by
  by_cases hl : l = []
  · simp only [processMetaLine, if_pos hl] at h
    cases h
    rfl
  · simp only [processMetaLine, if_neg hl] at h
    unfold metaKey at hk
    split at h
    · rename_i k v heq
      rw [heq] at hk
      simp only [List.headD] at hk
      split_ifs at h with h1 h2 h3
      · cases h; rfl
      · split at h
        · cases h
        · cases h; rfl
      · split at h
        · cases h
        · cases h; rfl
      · cases h; rfl
    · cases h

theorem processMetaLines_shape_none :
    ∀ (lines : List (List Char)) (st : MetaParseState),
    (∀ l ∈ lines, metaKey l ≠ "shape".data) → st.shape = none →
    (∃ e, processMetaLines st lines = .error e) ∨
    (∃ st', processMetaLines st lines = .ok st' ∧ st'.shape = none)
  | [], st, _, h0 => Or.inr ⟨st, rfl, h0⟩
  | l :: ls, st, h, h0 => by
    rcases he : processMetaLine st l with e | st1
    · exact Or.inl ⟨e, by simp [processMetaLines, he]⟩
    · have h1 : st1.shape = none :=
        (processMetaLine_shape_eq st st1 l (h l (by simp)) he).trans h0
      have := processMetaLines_shape_none ls st1 (fun x hx => h x (by simp [hx])) h1
      simpa [processMetaLines, he] using this

theorem processMetaLines_dataType_nil :
    ∀ (lines : List (List Char)) (st : MetaParseState),
    (∀ l ∈ lines, metaKey l ≠ "datatype".data) → st.dataType = [] →
    (∃ e, processMetaLines st lines = .error e) ∨
    (∃ st', processMetaLines st lines = .ok st' ∧ st'.dataType = [])
  | [], st, _, h0 => Or.inr ⟨st, rfl, h0⟩
  | l :: ls, st, h, h0 => by
    rcases he : processMetaLine st l with e | st1
    · exact Or.inl ⟨e, by simp [processMetaLines, he]⟩
    · have h1 : st1.dataType = [] :=
        (processMetaLine_dataType_eq st st1 l (h l (by simp)) he).trans h0
      have := processMetaLines_dataType_nil ls st1 (fun x hx => h x (by simp [hx])) h1
      simpa [processMetaLines, he] using this

/-- C4 (counterexample).  A metadata file with `shape` and `datatype`
but no `name` key parses successfully: the name falls back to the file's
base name (`src/pkg/tensor/storage.go:303-305`), so a missing `name` is
not a fatal parse error as the claim requires. -/
theorem c4_counterexample :
    loadTensorMetadataInternal "foo" "shape:2,3\ndatatype:float64\n".data =
      .ok ⟨"foo", [2, 3], "float64", [3, 1]⟩ ∧
    (∀ l ∈ splitOnChar '\n' "shape:2,3\ndatatype:float64\n".data,
      metaKey l ≠ "name".data) := by
  exact ⟨by rfl, by decide⟩

/-- C4 (amended).  If the `shape` key or the `datatype` key is missing
from every line of a metadata file, parsing fails with an error (no
metadata record is produced); a missing `name` key is not fatal (see the
counterexample: the name falls back to the file name). -/
theorem c4_missing_key_fatal (fallbackName : String) (content : List Char)
    (h : (∀ l ∈ splitOnChar '\n' content, metaKey l ≠ "shape".data) ∨
      (∀ l ∈ splitOnChar '\n' content, metaKey l ≠ "datatype".data)) :
    ∃ e, loadTensorMetadataInternal fallbackName content = .error e := by
  rcases h with hsh | hdt
  · rcases processMetaLines_shape_none (splitOnChar '\n' content)
        ⟨[], none, [], none⟩ hsh rfl with ⟨e, he⟩ | ⟨st', hok, hnone⟩
    · exact ⟨e, by simp [loadTensorMetadataInternal, he]⟩
    · refine ⟨"incomplete metadata (name, shape, or datatype missing)", ?_⟩
      simp only [loadTensorMetadataInternal, hok]
      rw [if_pos (Or.inl hnone)]
  · rcases processMetaLines_dataType_nil (splitOnChar '\n' content)
        ⟨[], none, [], none⟩ hdt rfl with ⟨e, he⟩ | ⟨st', hok, hnil⟩
    · exact ⟨e, by simp [loadTensorMetadataInternal, he]⟩
    · refine ⟨"incomplete metadata (name, shape, or datatype missing)", ?_⟩
      simp only [loadTensorMetadataInternal, hok]
      rw [if_pos (Or.inr (Or.inl hnil))]

theorem c4_missing_key_fatal_witness :
    (∀ l ∈ splitOnChar '\n' "name:t\n".data, metaKey l ≠ "shape".data) ∧
    (∃ e, loadTensorMetadataInternal "t" "name:t\n".data = .error e) :=
  ⟨by decide, c4_missing_key_fatal "t" "name:t\n".data (Or.inl (by decide))⟩

/-! ## Claim C8: index queries -/

theorem assocFind_assocSet_self {κ ν : Type} [DecidableEq κ]
    (m : List (κ × ν)) (k : κ) (v : ν) :
    assocFind (assocSet m k v) k = some v := by
  unfold assocFind assocSet
  rw [List.find?_cons_of_pos _ (by simp)]
  rfl

theorem setInsert_mem_self (s : List String) (x : String) : x ∈ setInsert s x := by
  unfold setInsert
  split_ifs with h
  · exact h
  · simp

/-- C8.  Index queries: with both filters the result is exactly the
intersection of the two indexed name sets; with one filter exactly that
set (empty when the key is absent); with no filters all indexed names;
and a tensor whose shape is exactly `[0]` is indexed under rank 0. -/
theorem c8_index_query (idx : InMemoryIndex) (fdt : String) (fnd : Int) (n : String) :
    (fdt ≠ "" → fnd ≠ -1 →
      (n ∈ indexQuery idx fdt fnd ↔
        n ∈ (assocFind idx.byDataType fdt).getD [] ∧
          n ∈ (assocFind idx.byNumDimensions fnd).getD [])) ∧
    (fdt ≠ "" → fnd = -1 →
      (n ∈ indexQuery idx fdt fnd ↔ n ∈ (assocFind idx.byDataType fdt).getD [])) ∧
    (fdt = "" → fnd ≠ -1 →
      (n ∈ indexQuery idx fdt fnd ↔
        n ∈ (assocFind idx.byNumDimensions fnd).getD [])) ∧
    (fdt = "" → fnd = -1 →
      (n ∈ indexQuery idx fdt fnd ↔ n ∈ indexAllNames idx)) ∧
    (∀ md : TensorMetadata, md.shape = [(0 : Int)] →
      md.name ∈ (assocFind (indexAdd idx md).byNumDimensions 0).getD []) := by
  refine ⟨?_, ?_, ?_, ?_, ?_⟩
  · intro h1 h2
    unfold indexQuery
    rcases hdt : assocFind idx.byDataType fdt with _ | s1
    · rw [if_pos ⟨h1, rfl⟩]
      simp [hdt]
    · rcases hnd : assocFind idx.byNumDimensions fnd with _ | s2
      · rw [if_neg (by simp [hdt]), if_pos ⟨h2, rfl⟩]
        simp [hnd]
      · rw [if_neg (by simp [hdt]), if_neg (by simp [hnd])]
        simp only [hdt, hnd, if_pos h1, if_pos h2, Option.getD_some,
          List.cons_append, List.nil_append]
        by_cases hlt : s1.length < s2.length
        · simp only [if_pos hlt, List.mem_filter, decide_eq_true_eq]
        · simp only [if_neg hlt, List.mem_filter, decide_eq_true_eq]
          tauto
  · intro h1 h2
    subst h2
    unfold indexQuery
    rcases hdt : assocFind idx.byDataType fdt with _ | s1
    · rw [if_pos ⟨h1, rfl⟩]
      simp [hdt]
    · rw [if_neg (by simp [hdt]), if_neg (by simp)]
      simp [if_pos h1, hdt]
  · intro h1 h2
    subst h1
    unfold indexQuery
    rcases hnd : assocFind idx.byNumDimensions fnd with _ | s2
    · rw [if_neg (by simp), if_pos ⟨h2, rfl⟩]
      simp [hnd]
    · rw [if_neg (by simp), if_neg (by simp [hnd])]
      simp [if_pos h2, hnd]
  · intro h1 h2
    subst h1; subst h2
    unfold indexQuery
    rw [if_neg (by simp), if_neg (by simp)]
    simp
  · intro md hmd
    have hrank : indexRank md.shape = 0 := by
      rw [hmd]; rfl
    unfold indexAdd
    rw [hrank]
    rw [assocFind_assocSet_self]
    exact setInsert_mem_self _ _

theorem c8_index_query_witness :
    ("a" ∈ indexQuery (indexAdd emptyIndex ⟨"a", [2, 3], "float64", [3, 1]⟩)
        "float64" 2 ↔
      "a" ∈ (assocFind (indexAdd emptyIndex
          ⟨"a", [2, 3], "float64", [3, 1]⟩).byDataType "float64").getD [] ∧
        "a" ∈ (assocFind (indexAdd emptyIndex
          ⟨"a", [2, 3], "float64", [3, 1]⟩).byNumDimensions 2).getD []) :=
  (c8_index_query (indexAdd emptyIndex ⟨"a", [2, 3], "float64", [3, 1]⟩)
    "float64" 2 "a").1 (by decide) (by decide)

/-! ## Claim C10: INSERT parse failures are pre-save -/

theorem parseAllLits_error {α : Type} (parseLit : String → Option α) :
    ∀ lits : List String, (∃ l ∈ lits, parseLit l = none) →
      ∃ e, parseAllLits parseLit lits = .error e
  | [], h => by simp at h
  | l :: ls, h => by
    rcases hpl : parseLit l with _ | v
    · exact ⟨l, by simp [parseAllLits, hpl]⟩
    · rcases h with ⟨x, hx, hfailx⟩
      rcases List.mem_cons.mp hx with rfl | hx'
      · rw [hpl] at hfailx; cases hfailx
      · rcases parseAllLits_error parseLit ls ⟨x, hx', hfailx⟩ with ⟨e, he⟩
        exact ⟨e, by simp [parseAllLits, hpl, he]⟩

theorem insertKindString_error {α : Type} [Zero α] (typeStr : String)
    (wrap : List α → TypedData) (parseLit : String → Option α) (status : String)
    (st : Store) (metadata : TensorMetadata) (literals : List String)
    (h : ∃ l ∈ literals, parseLit l = none) :
    (∃ e, (insertKindString typeStr wrap parseLit status st metadata literals).1 =
      Except.error e) ∧
    (insertKindString typeStr wrap parseLit status st metadata literals).2 = st := by
  rcases parseAllLits_error parseLit literals h with ⟨e, he⟩
  unfold insertKindString
  rw [he]
  exact ⟨⟨_, rfl⟩, rfl⟩

/-- C10.  For an INSERT of textual literals whose count matches the
tensor's total elements, if any literal fails to parse in the target
kind, the executor returns the parse error before performing any save:
the store, and hence the tensor's persisted metadata and data files, are
unchanged. -/
theorem c10_insert_atomic (st : Store) (tensorName : String)
    (literals : List String) (md : TensorMetadata)
    (hload : loadTensorMetadata st tensorName = .ok md)
    (hkind : md.dataType = DataTypeFloat32 ∨ md.dataType = DataTypeFloat64 ∨
      md.dataType = DataTypeInt32 ∨ md.dataType = DataTypeInt64)
    (hcount : (literals.length : Int) = totalElems md.shape)
    (hfail : ∃ l ∈ literals, literalParses md.dataType l = false) :
    (∃ e, (executeInsert st tensorName literals).1 = Except.error e) ∧
    (executeInsert st tensorName literals).2 = st := by
  have hne : literals ≠ [] := by
    rintro rfl
    rcases hfail with ⟨l, hl, _⟩
    simp at hl
  have hlen0 : ¬ (literals.length = 0 ∧ totalElems md.shape = 0) := by
    intro hc
    exact hne (List.length_eq_zero.mp hc.1)
  simp only [executeInsert, hload]
  rw [if_neg hlen0, if_neg (not_not_intro hcount)]
  rcases hkind with hk | hk | hk | hk
  · rw [if_pos hk]
    apply insertKindString_error
    rcases hfail with ⟨l, hl, hfl⟩
    refine ⟨l, hl, ?_⟩
    rw [literalParses, if_pos hk] at hfl
    rcases hgp : goParseFloat l with _ | v
    · rfl
    · rw [hgp] at hfl; simp at hfl
  · rw [if_neg (by simp [hk, DataTypeFloat64, DataTypeFloat32]), if_pos hk]
    apply insertKindString_error
    rcases hfail with ⟨l, hl, hfl⟩
    refine ⟨l, hl, ?_⟩
    rw [literalParses] at hfl
    rw [if_neg (by simp [hk, DataTypeFloat64, DataTypeFloat32]), if_pos hk] at hfl
    rcases hgp : goParseFloat l with _ | v
    · rfl
    · rw [hgp] at hfl; simp at hfl
  · rw [if_neg (by simp [hk, DataTypeInt32, DataTypeFloat32]),
      if_neg (by simp [hk, DataTypeInt32, DataTypeFloat64]), if_pos hk]
    apply insertKindString_error
    rcases hfail with ⟨l, hl, hfl⟩
    refine ⟨l, hl, ?_⟩
    rw [literalParses] at hfl
    rw [if_neg (by simp [hk, DataTypeInt32, DataTypeFloat32]),
      if_neg (by simp [hk, DataTypeInt32, DataTypeFloat64]), if_pos hk] at hfl
    rcases hgp : goParseIntLit 32 l with _ | v
    · rfl
    · rw [hgp] at hfl; simp at hfl
  · rw [if_neg (by simp [hk, DataTypeInt64, DataTypeFloat32]),
      if_neg (by simp [hk, DataTypeInt64, DataTypeFloat64]),
      if_neg (by simp [hk, DataTypeInt64, DataTypeInt32]), if_pos hk]
    apply insertKindString_error
    rcases hfail with ⟨l, hl, hfl⟩
    refine ⟨l, hl, ?_⟩
    rw [literalParses] at hfl
    rw [if_neg (by simp [hk, DataTypeInt64, DataTypeFloat32]),
      if_neg (by simp [hk, DataTypeInt64, DataTypeFloat64]),
      if_neg (by simp [hk, DataTypeInt64, DataTypeInt32]), if_pos hk] at hfl
    rcases hgp : goParseIntLit 64 l with _ | v
    · rfl
    · rw [hgp] at hfl; simp at hfl

theorem c10_insert_atomic_witness :
    loadTensorMetadata
        ⟨[("t", metaContentChars "t" [2] "int32" [1])], [], emptyIndex⟩ "t" =
      .ok ⟨"t", [2], "int32", [1]⟩ ∧
    ((2 : Int) = totalElems [(2 : Int)]) ∧
    (∃ e, (executeInsert
        ⟨[("t", metaContentChars "t" [2] "int32" [1])], [], emptyIndex⟩
        "t" ["1", "x"]).1 = Except.error e) ∧
    (executeInsert ⟨[("t", metaContentChars "t" [2] "int32" [1])], [], emptyIndex⟩
        "t" ["1", "x"]).2 =
      ⟨[("t", metaContentChars "t" [2] "int32" [1])], [], emptyIndex⟩ := by
  have h := c10_insert_atomic
    ⟨[("t", metaContentChars "t" [2] "int32" [1])], [], emptyIndex⟩
    "t" ["1", "x"] ⟨"t", [2], "int32", [1]⟩ (by rfl)
    (Or.inr (Or.inr (Or.inl rfl))) (by decide) ⟨"x", by decide, by decide⟩
  exact ⟨by rfl, by decide, h.1, h.2⟩

/-! ## Claim C6: CREATE TENSOR semantics -/

theorem computeStridesNew_length (shape : List Int) :
    (computeStridesNew shape).length = shape.length := by
  unfold computeStridesNew
  split_ifs
  · exact stridesCore_length shape
  · exact List.length_replicate _ _

theorem totalElems_nonneg : ∀ shape : List Int, (∀ d ∈ shape, 0 ≤ d) →
    0 ≤ totalElems shape
  | [], _ => by simp [totalElems]
  | d :: rest, h => by
    by_cases hd : d = 0
    · simp [totalElems, hd]
    · have h0 : 0 ≤ d := h d (by simp)
      have ih := totalElems_nonneg rest (fun x hx => h x (by simp [hx]))
      simp only [totalElems, if_neg hd]
      exact mul_nonneg h0 ih

theorem assocSet_assocSet {κ ν : Type} [DecidableEq κ]
    (m : List (κ × ν)) (k : κ) (v1 v2 : ν) :
    assocSet (assocSet m k v1) k v2 = assocSet m k v2 := by
  unfold assocSet
  congr 1
  rw [List.filter_cons_of_neg (by simp), List.filter_filter]
  simp

theorem createKind_spec {α : Type} [Zero α] (typeStr : String)
    (wrap : List α → TypedData) (st : Store) (tensorName : String)
    (shape : List Int) (esz : Int)
    (hdt : getElementSize typeStr = .ok esz) (hesz : 0 < esz)
    (hpos : ∀ d ∈ shape, 0 ≤ d) :
    createKind (α := α) typeStr wrap st tensorName shape =
      (.ok (typeStr, ⟨tensorName, shape, typeStr, computeStridesNew shape⟩),
       { st with
         metaFiles := assocSet st.metaFiles tensorName
           (metaContentChars tensorName shape typeStr (computeStridesNew shape)),
         dataFiles := assocSet st.dataFiles tensorName
           (wrap (List.replicate (totalElems shape).toNat 0)) }) := by
  have hT0 : 0 ≤ totalElems shape := totalElems_nonneg shape hpos
  have hTcast : ((List.replicate (totalElems shape).toNat (0 : α)).length : Int) =
      totalElems shape := by
    rw [List.length_replicate]
    exact Int.toNat_of_nonneg hT0
  have hany : ¬ (shape.any (fun d => decide (d < 0)) = true) := by
    simp only [List.any_eq_true, decide_eq_true_eq, not_exists]
    intro d hd
    have h1 := hpos d hd.1
    have h2 := hd.2
    omega
  unfold createKind newTensor
  rw [if_neg (by simp)]
  rw [if_neg hany]
  unfold saveTensor
  simp only [if_neg (show ¬ typeStr ≠ typeStr by simp), hdt]
  rw [hTcast, computeStridesNew_length]
  rw [show (if shape.length ≠ shape.length then computeStridesLoad shape
      else computeStridesNew shape) = computeStridesNew shape by simp]
  rw [show (if totalElems shape ≠ totalElems shape ∧ totalElems shape > 0 then
      totalElems shape else totalElems shape) = totalElems shape by simp]
  by_cases hz : totalElems shape = 0
  · rw [if_pos (by rw [hz]; ring)]
    simp only [hz, Int.toNat_zero, List.replicate_zero]
  · rw [if_neg (mul_ne_zero hz (by omega))]
    rw [if_neg (by simp)]
    rw [assocSet_assocSet]

/-- C6.  CREATE TENSOR: if metadata for the name is loadable, the
executor fails with the already-exists error and the store is unchanged;
if no metadata file exists, it persists an empty zero-filled tensor of
the requested kind (both files), updates the index with the new
metadata, and returns exactly `"Tensor <name> created with type
<kind>"`. -/
theorem c6_create_semantics (st : Store) (tensorName : String) (shape : List Int)
    (dataType : String) :
    (∀ md, loadTensorMetadata st tensorName = .ok md →
      executeCreate st tensorName shape dataType =
        (.error ("tensor '" ++ tensorName ++ "' already exists"), st)) ∧
    (assocFind st.metaFiles tensorName = none → (∀ d ∈ shape, 0 ≤ d) →
      (dataType = DataTypeFloat32 ∨ dataType = DataTypeFloat64 ∨
        dataType = DataTypeInt32 ∨ dataType = DataTypeInt64) →
      (executeCreate st tensorName shape dataType).1 =
        .ok ("Tensor " ++ tensorName ++ " created with type " ++ dataType) ∧
      (executeCreate st tensorName shape dataType).2.metaFiles =
        assocSet st.metaFiles tensorName
          (metaContentChars tensorName shape dataType (computeStridesNew shape)) ∧
      (executeCreate st tensorName shape dataType).2.dataFiles =
        assocSet st.dataFiles tensorName (emptyBufferFor dataType shape) ∧
      (executeCreate st tensorName shape dataType).2.index =
        indexAdd st.index ⟨tensorName, shape, dataType, computeStridesNew shape⟩) := by
  constructor
  · intro md hload
    unfold executeCreate
    rw [hload]
  · intro hnone hpos hkind
    have hload : loadTensorMetadata st tensorName =
        .error ("failed to read metadata from " ++ tensorName ++ ".meta") := by
      unfold loadTensorMetadata
      rw [hnone]
    have hpre : ("failed to read metadata".data.isPrefixOf
        ("failed to read metadata from " ++ tensorName ++ ".meta").data) = true := by
      rw [List.isPrefixOf_iff_prefix]
      have : ("failed to read metadata from " ++ tensorName ++ ".meta").data =
          "failed to read metadata".data ++
            (" from " ++ tensorName ++ ".meta").data := by
        rw [← String.data_append]
        rfl
      rw [this]
      exact List.prefix_append _ _
    rcases hkind with hk | hk | hk | hk <;> subst hk
    · simp only [executeCreate, hload]
      rw [if_neg (by simp [hpre])]
      simp only [if_true]
      rw [createKind_spec DataTypeFloat32 TypedData.f32 st tensorName shape 4 rfl
          (by norm_num) hpos]
      exact ⟨rfl, rfl, rfl, rfl⟩
    · simp only [executeCreate, hload]
      rw [if_neg (by simp [hpre])]
      rw [if_neg (by decide)]
      simp only [if_true]
      rw [createKind_spec DataTypeFloat64 TypedData.f64 st tensorName shape 8 rfl
          (by norm_num) hpos]
      exact ⟨rfl, rfl, rfl, rfl⟩
    · simp only [executeCreate, hload]
      rw [if_neg (by simp [hpre])]
      rw [if_neg (by decide), if_neg (by decide)]
      simp only [if_true]
      rw [createKind_spec DataTypeInt32 TypedData.i32 st tensorName shape 4 rfl
          (by norm_num) hpos]
      exact ⟨rfl, rfl, rfl, rfl⟩
    · simp only [executeCreate, hload]
      rw [if_neg (by simp [hpre])]
      rw [if_neg (by decide), if_neg (by decide), if_neg (by decide)]
      simp only [if_true]
      rw [createKind_spec DataTypeInt64 TypedData.i64 st tensorName shape 8 rfl
          (by norm_num) hpos]
      exact ⟨rfl, rfl, rfl, rfl⟩

theorem c6_create_semantics_witness :
    (assocFind (⟨[], [], emptyIndex⟩ : Store).metaFiles "t" = none) ∧
    ((executeCreate ⟨[], [], emptyIndex⟩ "t" [2, 3] "int32").1 =
      .ok ("Tensor " ++ "t" ++ " created with type " ++ "int32") ∧
      (executeCreate ⟨[], [], emptyIndex⟩ "t" [2, 3] "int32").2.metaFiles =
        assocSet ([] : List (String × List Char)) "t"
          (metaContentChars "t" [2, 3] "int32" (computeStridesNew [2, 3])) ∧
      (executeCreate ⟨[], [], emptyIndex⟩ "t" [2, 3] "int32").2.dataFiles =
        assocSet ([] : List (String × TypedData)) "t" (emptyBufferFor "int32" [2, 3]) ∧
      (executeCreate ⟨[], [], emptyIndex⟩ "t" [2, 3] "int32").2.index =
        indexAdd emptyIndex ⟨"t", [2, 3], "int32", computeStridesNew [2, 3]⟩) :=
  ⟨rfl,
    (c6_create_semantics ⟨[], [], emptyIndex⟩ "t" [2, 3] "int32").2 rfl (by decide)
      (Or.inr (Or.inr (Or.inl rfl)))⟩

/-! ## Claim C9: CREATE TENSOR parser defaults -/

/-- C9.  Parsed CREATE TENSOR defaults: whenever the regex's optional
TYPE group does not match (the TYPE clause is omitted), any successfully
parsed query carries data type `float64`; a bare `CREATE TENSOR <name>`
parses to the empty shape (rank 0) with data type `float64`; and
`CREATE TENSOR <name> TYPE <kind>` parses to the empty shape with the
requested kind — so an omitted shape always yields rank 0. -/
theorem c9_create_defaults :
    (∀ (parts : List String) (q : Query),
      (createTypeClause (parts.drop 3)).2 = none →
      parseCreate parts = .ok q → q.dataType = DataTypeFloat64) ∧
    (∀ name : String,
      parseCreate ["CREATE", "TENSOR", name] =
        .ok { type := .createTensor, tensorNames := [name], shape := [],
              dataType := DataTypeFloat64 }) ∧
    (∀ (name k : String) (esz : Int), k ≠ "" → k.data.all isWordChar = true →
      getElementSize (lowerStr (trimStr k)) = .ok esz →
      parseCreate ["CREATE", "TENSOR", name, "TYPE", k] =
        .ok { type := .createTensor, tensorNames := [name], shape := [],
              dataType := lowerStr (trimStr k) }) := by
  refine ⟨?_, ?_, ?_⟩
  · intro parts q hnone hok
    simp only [parseCreate] at hok
    split_ifs at hok
    split at hok
    · cases hok
    · rw [hnone] at hok
      cases hok
      rfl
  · intro name
    rfl
  · intro name k esz hk hkword hkvalid
    have hclause : createTypeClause ["TYPE", k] = ("", some k) := by
      unfold createTypeClause
      rw [if_pos (by simp)]
      simp only [List.getLastD, List.dropLast]
      rw [if_pos ⟨hk, hkword, by rfl⟩]
      rfl
    have hdrop : (["CREATE", "TENSOR", name, "TYPE", k] : List String).drop 3 =
        ["TYPE", k] := rfl
    simp only [parseCreate, List.map_cons, List.headD_cons, List.length_cons,
      List.length_nil, List.getD_cons_succ, List.getD_cons_zero]
    rw [if_neg (by decide)]
    rw [if_neg (by push_neg; exact ⟨by omega, by decide⟩)]
    rw [hdrop, hclause]
    simp only [hkvalid]
    rfl

theorem c9_create_defaults_witness :
    ((createTypeClause (["CREATE", "TENSOR", "t", "2,3"].drop 3)).2 = none) ∧
    (parseCreate ["CREATE", "TENSOR", "t", "2,3"] =
      .ok { type := .createTensor, tensorNames := ["t"], shape := [2, 3],
            dataType := DataTypeFloat64 }) ∧
    ((parseCreate ["CREATE", "TENSOR", "t", "2,3"]).map Query.dataType =
      .ok DataTypeFloat64) ∧
    (parseCreate ["CREATE", "TENSOR", "u"] =
      .ok { type := .createTensor, tensorNames := ["u"], shape := [],
            dataType := DataTypeFloat64 }) ∧
    (parseCreate ["CREATE", "TENSOR", "v", "TYPE", "INT32"] =
      .ok { type := .createTensor, tensorNames := ["v"], shape := [],
            dataType := lowerStr (trimStr "INT32") }) := by
  refine ⟨by rfl, by rfl, ?_, (c9_create_defaults.2.1 "u"), ?_⟩
  · have h := c9_create_defaults.1 ["CREATE", "TENSOR", "t", "2,3"]
      { type := .createTensor, tensorNames := ["t"], shape := [2, 3],
        dataType := DataTypeFloat64 } (by rfl) (by rfl)
    rw [show parseCreate ["CREATE", "TENSOR", "t", "2,3"] =
      .ok { type := .createTensor, tensorNames := ["t"], shape := [2, 3],
            dataType := DataTypeFloat64 } from rfl]
    rw [Except.map, h]
  · exact c9_create_defaults.2.2 "v" "INT32" 4 (by decide) (by rfl) (by rfl)

theorem c3_batching_witness :
    (getElementSize "int64" = Except.ok 8) ∧ ((0 : Int) < totalElems [(5 : Int)]) ∧
    ((([(10 : Int), 20, 30, 40, 50] : List Int).length : Int) =
      totalElems [(5 : Int)]) ∧ ((0 : Int) < 2) ∧
    ∃ envs : List (TensorDataWithMetadata Int),
      getDataForInference ⟨"v", [5], [10, 20, 30, 40, 50], "int64", [1]⟩ none 2 =
        .ok envs ∧
      (envs.length : Int) = mathCeilDiv (totalElems [(5 : Int)]) 2 ∧
      (envs.map (fun e => e.data)).flatten = [10, 20, 30, 40, 50] := by
  have h := c3_batching (α := Int) ⟨"v", [5], [10, 20, 30, 40, 50], "int64", [1]⟩ 2 8
    (by rfl) (by decide) (by decide) (by decide)
  rcases h with ⟨envs, h1, h2, h3, h4⟩
  exact ⟨by rfl, by decide, by decide, by decide, envs, h1, h2, h4⟩

/-! ## Claim C7: decimal encoding round trip -/

theorem digitChar_facts : ∀ d : Nat, d < 10 →
    (Nat.digitChar d).isDigit = true ∧ (Nat.digitChar d).toNat - 48 = d := by
  decide

theorem isDigit_not_special (c : Char) (h : c.isDigit = true) :
    c ≠ ',' ∧ c ≠ '\n' ∧ c ≠ ':' ∧ c ≠ '+' ∧ c ≠ '-' ∧ c.isWhitespace = false := by
  refine ⟨?_, ?_, ?_, ?_, ?_, ?_⟩ <;>
    first
    | (rintro rfl; exact absurd h (by decide))
    | (rcases hw : c.isWhitespace with _ | _
       · rfl
       · exfalso
         have : c = ' ' ∨ c = '\t' ∨ c = '\r' ∨ c = '\n' := by
           revert hw
           simp [Char.isWhitespace]
           tauto
         rcases this with rfl | rfl | rfl | rfl <;> exact absurd h (by decide))

theorem natToCharsAux_all_digit : ∀ (fuel n : Nat), n ≤ fuel →
    ∀ c ∈ natToCharsAux fuel n, c.isDigit = true
  | 0, n, hn => by
    interval_cases n
    intro c hc
    simp [natToCharsAux] at hc
  | fuel + 1, n, hn => by
    intro c hc
    by_cases h0 : n = 0
    · simp [natToCharsAux, h0] at hc
    · simp only [natToCharsAux, if_neg h0, List.mem_append, List.mem_singleton] at hc
      rcases hc with hc | rfl
      · have hdiv : n / 10 ≤ fuel := by
          have := Nat.div_lt_self (Nat.pos_of_ne_zero h0) (by norm_num : 1 < 10)
          omega
        exact natToCharsAux_all_digit fuel (n / 10) hdiv c hc
      · exact (digitChar_facts (n % 10) (Nat.mod_lt n (by norm_num))).1

theorem natToCharsAux_foldl : ∀ (fuel n acc : Nat), n ≤ fuel →
    (natToCharsAux fuel n).foldl (fun a ch => a * 10 + (ch.toNat - 48)) acc =
      acc * 10 ^ (natToCharsAux fuel n).length + n
  | 0, n, acc, hn => by
    interval_cases n
    simp [natToCharsAux]
  | fuel + 1, n, acc, hn => by
    by_cases h0 : n = 0
    · simp [natToCharsAux, h0]
    · have hdiv : n / 10 ≤ fuel := by
        have := Nat.div_lt_self (Nat.pos_of_ne_zero h0) (by norm_num : 1 < 10)
        omega
      have ih := natToCharsAux_foldl fuel (n / 10) acc hdiv
      simp only [natToCharsAux, if_neg h0, List.foldl_append, List.foldl_cons,
        List.foldl_nil, List.length_append, List.length_cons, List.length_nil, ih]
      rw [(digitChar_facts (n % 10) (Nat.mod_lt n (by norm_num))).2]
      have hmod := Nat.div_add_mod n 10
      ring_nf
      omega

theorem natToCharsAux_ne_nil (fuel n : Nat) (h0 : n ≠ 0) (hn : n ≤ fuel) :
    natToCharsAux fuel n ≠ [] := by
  rcases fuel with _ | fuel
  · omega
  · simp only [natToCharsAux, if_neg h0]
    simp

theorem natToChars_all_digit (n : Nat) : ∀ c ∈ natToChars n, c.isDigit = true := by
  unfold natToChars
  split_ifs with h0
  · intro c hc
    simp only [List.mem_singleton] at hc
    subst hc
    decide
  · exact natToCharsAux_all_digit (n + 1) n (by omega)

theorem natToChars_ne_nil (n : Nat) : natToChars n ≠ [] := by
  unfold natToChars
  split_ifs with h0
  · simp
  · exact natToCharsAux_ne_nil (n + 1) n h0 (by omega)

theorem parseNatDigits_natToChars (n : Nat) :
    parseNatDigits (natToChars n) = some n := by
  have hall : (natToChars n).all Char.isDigit = true := by
    rw [List.all_eq_true]
    intro c hc
    exact natToChars_all_digit n c hc
  unfold parseNatDigits
  rw [if_neg (natToChars_ne_nil n), if_pos hall]
  unfold natToChars
  split_ifs with h0
  · subst h0
    rfl
  · rw [natToCharsAux_foldl (n + 1) n 0 (by omega)]
    simp

theorem goAtoi_intToChars (i : Int) (hlo : int64Min ≤ i) (hhi : i ≤ int64Max) :
    goAtoi (intToChars i) = some i := by
  unfold intToChars
  split_ifs with hneg
  · rw [show goAtoi ('-' :: natToChars (-i).toNat) =
        ((parseNatDigits (natToChars (-i).toNat)).bind fun n =>
          if int64Min ≤ -(n : Int) then some (-(n : Int)) else none) from rfl]
    rw [parseNatDigits_natToChars]
    have hcast : (((-i).toNat : Int)) = -i := Int.toNat_of_nonneg (by omega)
    rw [Option.some_bind]
    rw [if_pos (by rw [hcast]; omega)]
    rw [hcast]
    simp
  · rcases hs : natToChars i.toNat with _ | ⟨c, rest⟩
    · exact absurd hs (natToChars_ne_nil _)
    · have hcd : c.isDigit = true := natToChars_all_digit i.toNat c (by rw [hs]; simp)
      have hsp := isDigit_not_special c hcd
      show goAtoi (c :: rest) = some i
      rw [goAtoi, if_neg hsp.2.2.2.1, if_neg hsp.2.2.2.2.1]
      rw [← hs, parseNatDigits_natToChars]
      have hcast : ((i.toNat : Int)) = i := Int.toNat_of_nonneg (by omega)
      rw [Option.some_bind]
      rw [if_pos (by rw [hcast]; exact hhi)]
      rw [hcast]

theorem intToChars_char_set (i : Int) :
    ∀ c ∈ intToChars i, c.isDigit = true ∨ c = '-' := by
  unfold intToChars
  split_ifs with hneg
  · intro c hc
    rcases List.mem_cons.mp hc with rfl | hc'
    · exact Or.inr rfl
    · exact Or.inl (natToChars_all_digit _ c hc')
  · intro c hc
    exact Or.inl (natToChars_all_digit _ c hc)

theorem intToChars_ne_nil (i : Int) : intToChars i ≠ [] := by
  unfold intToChars
  split_ifs
  · simp
  · exact natToChars_ne_nil _

theorem char_set_not_ws_nl (c : Char) (h : c.isDigit = true ∨ c = '-' ∨ c = ',') :
    c.isWhitespace = false ∧ c ≠ '\n' := by
  rcases h with hd | rfl | rfl
  · have := isDigit_not_special c hd
    exact ⟨this.2.2.2.2.2, this.2.1⟩
  · exact ⟨by decide, by decide⟩
  · exact ⟨by decide, by decide⟩

theorem trimLeft_of_head_not_ws : ∀ s : List Char,
    (∀ c ∈ s, c.isWhitespace = false) → trimLeft s = s
  | [], _ => rfl
  | x :: xs, h => by
    unfold trimLeft
    rw [h x (by simp)]
    simp

theorem trimChars_of_no_ws (s : List Char) (h : ∀ c ∈ s, c.isWhitespace = false) :
    trimChars s = s := by
  unfold trimChars
  rw [trimLeft_of_head_not_ws s h,
    trimLeft_of_head_not_ws s.reverse (fun c hc => h c (List.mem_reverse.mp hc)),
    List.reverse_reverse]

theorem splitOnChar_ne_nil (c : Char) : ∀ s : List Char, splitOnChar c s ≠ []
  | [] => by simp [splitOnChar]
  | x :: xs => by
    rw [splitOnChar]
    split_ifs
    · simp
    · rcases h : splitOnChar c xs with _ | ⟨y, ys⟩
      · simp
      · simp

theorem splitOnChar_of_not_mem (c : Char) : ∀ s : List Char, c ∉ s →
    splitOnChar c s = [s]
  | [], _ => rfl
  | x :: xs, h => by
    rw [splitOnChar, if_neg (by intro he; exact h (by simp [he]))]
    rw [splitOnChar_of_not_mem c xs (fun hm => h (by simp [hm]))]

theorem splitOnChar_append_cons (c : Char) : ∀ (xs ys : List Char), c ∉ xs →
    splitOnChar c (xs ++ c :: ys) = xs :: splitOnChar c ys
  | [], ys, _ => by
    show splitOnChar c (c :: ys) = [] :: splitOnChar c ys
    rw [splitOnChar, if_pos rfl]
  | x :: xs, ys, h => by
    show splitOnChar c (x :: (xs ++ c :: ys)) = (x :: xs) :: splitOnChar c ys
    rw [splitOnChar, if_neg (by intro he; exact h (by simp [he]))]
    rw [splitOnChar_append_cons c xs ys (fun hm => h (by simp [hm]))]

theorem splitN2_append_cons (c : Char) : ∀ (ks vs : List Char), c ∉ ks →
    splitN2 c (ks ++ c :: vs) = [ks, vs]
  | [], vs, _ => by
    show splitN2 c (c :: vs) = [[], vs]
    rw [splitN2, if_pos rfl]
  | k :: ks, vs, h => by
    show splitN2 c (k :: (ks ++ c :: vs)) = [k :: ks, vs]
    rw [splitN2, if_neg (by intro he; exact h (by simp [he]))]
    rw [splitN2_append_cons c ks vs (fun hm => h (by simp [hm]))]

theorem intSliceToChars_nil : intSliceToChars [] = [] := rfl

theorem intSliceToChars_singleton (v : Int) : intSliceToChars [v] = intToChars v := by
  simp [intSliceToChars, List.intercalate]

theorem intSliceToChars_cons₂ (v w : Int) (ws : List Int) :
    intSliceToChars (v :: w :: ws) = intToChars v ++ ',' :: intSliceToChars (w :: ws) := by
  simp [intSliceToChars, List.intercalate, List.intersperse]

theorem intSliceToChars_char_set : ∀ slice : List Int,
    ∀ c ∈ intSliceToChars slice, c.isDigit = true ∨ c = '-' ∨ c = ','
  | [] => by simp [intSliceToChars_nil]
  | [v] => by
    rw [intSliceToChars_singleton]
    intro c hc
    rcases intToChars_char_set v c hc with h | h
    · exact Or.inl h
    · exact Or.inr (Or.inl h)
  | v :: w :: ws => by
    rw [intSliceToChars_cons₂]
    intro c hc
    rcases List.mem_append.mp hc with hc' | hc'
    · rcases intToChars_char_set v c hc' with h | h
      · exact Or.inl h
      · exact Or.inr (Or.inl h)
    · rcases List.mem_cons.mp hc' with rfl | hc''
      · exact Or.inr (Or.inr rfl)
      · exact intSliceToChars_char_set (w :: ws) c hc''

theorem intSliceToChars_ne_nil : ∀ (v : Int) (ws : List Int),
    intSliceToChars (v :: ws) ≠ []
  | v, [] => by
    rw [intSliceToChars_singleton]
    exact intToChars_ne_nil v
  | v, w :: ws => by
    rw [intSliceToChars_cons₂]
    intro h
    exact intToChars_ne_nil v (List.append_eq_nil.mp h).1

theorem comma_not_mem_intToChars (v : Int) : ',' ∉ intToChars v := by
  intro hm
  rcases intToChars_char_set v ',' hm with h | h
  · exact absurd h (by decide)
  · exact absurd h (by decide)

theorem splitOnChar_intSliceToChars : ∀ slice : List Int, slice ≠ [] →
    splitOnChar ',' (intSliceToChars slice) = slice.map intToChars
  | [], h => absurd rfl h
  | [v], _ => by
    rw [intSliceToChars_singleton,
      splitOnChar_of_not_mem ',' (intToChars v) (comma_not_mem_intToChars v)]
    rfl
  | v :: w :: ws, _ => by
    rw [intSliceToChars_cons₂,
      splitOnChar_append_cons ',' (intToChars v) _ (comma_not_mem_intToChars v),
      splitOnChar_intSliceToChars (w :: ws) (by simp)]
    rfl

theorem trimChars_intToChars (v : Int) : trimChars (intToChars v) = intToChars v := by
  apply trimChars_of_no_ws
  intro c hc
  rcases intToChars_char_set v c hc with h | h
  · exact (isDigit_not_special c h).2.2.2.2.2
  · subst h; decide

theorem parseIntSliceParts_map (partsLen : Nat) (b : Bool) :
    ∀ slice : List Int, (∀ v ∈ slice, int64Min ≤ v ∧ v ≤ int64Max) →
    parseIntSliceParts partsLen b (slice.map intToChars) = .ok slice
  | [], _ => rfl
  | v :: vs, h => by
    have hv := h v (by simp)
    rw [List.map_cons, parseIntSliceParts]
    rw [trimChars_intToChars]
    rw [if_neg (by intro hc; exact intToChars_ne_nil v hc.1)]
    rw [if_neg (by intro hc; exact intToChars_ne_nil v hc.1)]
    rw [goAtoi_intToChars v hv.1 hv.2]
    rw [parseIntSliceParts_map partsLen b vs (fun x hx => h x (by simp [hx]))]

theorem parseIntSlice_intSliceToChars (slice : List Int)
    (h : ∀ v ∈ slice, int64Min ≤ v ∧ v ≤ int64Max) :
    parseIntSlice (intSliceToChars slice) = .ok slice := by
  have htrim : trimChars (intSliceToChars slice) = intSliceToChars slice := by
    apply trimChars_of_no_ws
    intro c hc
    exact (char_set_not_ws_nl c (intSliceToChars_char_set slice c hc)).1
  unfold parseIntSlice
  rw [htrim]
  rcases slice with _ | ⟨v, vs⟩
  · rw [if_pos intSliceToChars_nil]
  · rw [if_neg (intSliceToChars_ne_nil v vs)]
    rw [splitOnChar_intSliceToChars (v :: vs) (by simp)]
    exact parseIntSliceParts_map _ _ (v :: vs) h

theorem string_mk_data (s : String) : String.mk s.data = s := by
  cases s
  rfl

theorem metaContent_decomp (name dt : String) (shape strides : List Int) :
    metaContentChars name shape dt strides =
      ("name:".data ++ name.data) ++ '\n' ::
      (("shape:".data ++ intSliceToChars shape) ++ '\n' ::
      (("datatype:".data ++ dt.data) ++ '\n' ::
      (("strides:".data ++ intSliceToChars strides) ++ ['\n']))) := by
  unfold metaContentChars
  simp only [String.data_append]
  simp [List.append_assoc, List.cons_append]

theorem nl_not_mem_intSliceToChars (slice : List Int) :
    '\n' ∉ intSliceToChars slice := by
  intro hm
  have h := intSliceToChars_char_set slice '\n' hm
  rcases h with h | h | h
  · exact absurd h (by decide)
  · exact absurd h (by decide)
  · exact absurd h (by decide)

theorem splitOnChar_metaContent (name dt : String) (shape strides : List Int)
    (hnamenl : '\n' ∉ name.data) (hdtnl : '\n' ∉ dt.data) :
    splitOnChar '\n' (metaContentChars name shape dt strides) =
      ["name:".data ++ name.data,
       "shape:".data ++ intSliceToChars shape,
       "datatype:".data ++ dt.data,
       "strides:".data ++ intSliceToChars strides, []] := by
  rw [metaContent_decomp]
  rw [splitOnChar_append_cons '\n' _ _ (by
    rw [List.mem_append]
    rintro (h | h)
    · exact absurd h (by decide)
    · exact hnamenl h)]
  rw [splitOnChar_append_cons '\n' _ _ (by
    rw [List.mem_append]
    rintro (h | h)
    · exact absurd h (by decide)
    · exact nl_not_mem_intSliceToChars shape h)]
  rw [splitOnChar_append_cons '\n' _ _ (by
    rw [List.mem_append]
    rintro (h | h)
    · exact absurd h (by decide)
    · exact hdtnl h)]
  rw [splitOnChar_append_cons '\n' _ _ (by
    rw [List.mem_append]
    rintro (h | h)
    · exact absurd h (by decide)
    · exact nl_not_mem_intSliceToChars strides h)]
  rfl

theorem getElementSize_ok_cases (dt : String) (esz : Int)
    (h : getElementSize dt = .ok esz) :
    dt = DataTypeFloat32 ∨ dt = DataTypeFloat64 ∨ dt = DataTypeInt32 ∨
      dt = DataTypeInt64 := by
  unfold getElementSize at h
  split_ifs at h with h1 h2 h3 h4
  · exact Or.inl h1
  · exact Or.inr (Or.inl h2)
  · exact Or.inr (Or.inr (Or.inl h3))
  · exact Or.inr (Or.inr (Or.inr h4))

theorem loadTensorMetadataInternal_aux (fb name dt : String)
    (shape strides : List Int)
    (hl3 : ∀ s : MetaParseState, processMetaLine s ("datatype:".data ++ dt.data) =
      .ok { s with dataType := dt.data })
    (hdtne : dt.data ≠ []) (hdtnl : '\n' ∉ dt.data)
    (hname0 : name ≠ "") (hnametr : trimChars name.data = name.data)
    (hnamenl : '\n' ∉ name.data)
    (hshB : ∀ v ∈ shape, int64Min ≤ v ∧ v ≤ int64Max)
    (hstB : ∀ v ∈ strides, int64Min ≤ v ∧ v ≤ int64Max) :
    loadTensorMetadataInternal fb (metaContentChars name shape dt strides) =
      .ok ⟨name, shape, dt, strides⟩ := by
  have hnd : name.data ≠ [] := by
    intro h
    exact hname0 (String.ext (h.trans rfl))
  have hps : parseIntSlice (trimChars (intSliceToChars shape)) = .ok shape := by
    rw [trimChars_of_no_ws _ (fun c hc =>
      (char_set_not_ws_nl c (intSliceToChars_char_set shape c hc)).1)]
    exact parseIntSlice_intSliceToChars shape hshB
  have hpv : parseIntSlice (trimChars (intSliceToChars strides)) = .ok strides := by
    rw [trimChars_of_no_ws _ (fun c hc =>
      (char_set_not_ws_nl c (intSliceToChars_char_set strides c hc)).1)]
    exact parseIntSlice_intSliceToChars strides hstB
  have hl1 : ∀ s : MetaParseState, processMetaLine s ("name:".data ++ name.data) =
      .ok { s with name := trimChars name.data } := fun s => rfl
  have hl2 : ∀ s : MetaParseState,
      processMetaLine s ("shape:".data ++ intSliceToChars shape) =
        .ok { s with shape := some shape } := by
    intro s
    rw [show processMetaLine s ("shape:".data ++ intSliceToChars shape) =
      (match parseIntSlice (trimChars (intSliceToChars shape)) with
       | Except.error e => Except.error ("invalid shape in metadata: " ++ e)
       | Except.ok sh => Except.ok { s with shape := some sh }) from rfl]
    rw [hps]
  have hl4 : ∀ s : MetaParseState,
      processMetaLine s ("strides:".data ++ intSliceToChars strides) =
        .ok { s with strides := some strides } := by
    intro s
    rw [show processMetaLine s ("strides:".data ++ intSliceToChars strides) =
      (match parseIntSlice (trimChars (intSliceToChars strides)) with
       | Except.error e => Except.error ("invalid strides in metadata: " ++ e)
       | Except.ok sv => Except.ok { s with strides := some sv }) from rfl]
    rw [hpv]
  have hl5 : ∀ s : MetaParseState, processMetaLine s [] = .ok s := fun s => rfl
  unfold loadTensorMetadataInternal
  rw [splitOnChar_metaContent name dt shape strides hnamenl hdtnl]
  simp only [processMetaLines, hl1, hnametr, hl2, hl3, hl4, hl5]
  rw [if_neg hnd]
  rw [if_neg (by
    push_neg
    exact ⟨by simp, hdtne, hnd⟩)]
  simp [string_mk_data]

theorem loadTensorMetadataInternal_metaContent (fb name dt : String)
    (shape strides : List Int) (esz : Int)
    (hdt : getElementSize dt = .ok esz)
    (hname0 : name ≠ "") (hnametr : trimChars name.data = name.data)
    (hnamenl : '\n' ∉ name.data)
    (hshB : ∀ v ∈ shape, int64Min ≤ v ∧ v ≤ int64Max)
    (hstB : ∀ v ∈ strides, int64Min ≤ v ∧ v ≤ int64Max) :
    loadTensorMetadataInternal fb (metaContentChars name shape dt strides) =
      .ok ⟨name, shape, dt, strides⟩ := by
  rcases getElementSize_ok_cases dt esz hdt with rfl | rfl | rfl | rfl <;>
    exact loadTensorMetadataInternal_aux fb name _ shape strides (fun s => rfl)
      (by decide) (by decide) hname0 hnametr hnamenl hshB hstB

theorem saveTensor_metaFiles {α : Type} [Zero α] (typeStr : String)
    (wrap : List α → TypedData) (st : Store) (t : Tensor α)
    (htype : t.dataType = typeStr) (hsl : t.strides.length = t.shape.length) :
    (saveTensor typeStr wrap st t).2.metaFiles =
      assocSet st.metaFiles t.name
        (metaContentChars t.name t.shape t.dataType t.strides) := by
  unfold saveTensor
  rw [if_neg (by simp [htype])]
  rw [show (if t.strides.length ≠ t.shape.length then computeStridesLoad t.shape
      else t.strides) = t.strides from by simp [hsl]]
  rcases h : getElementSize t.dataType with e | esz
  · rfl
  · simp only []
    split_ifs <;> rfl

/-- C7.  Save/load round trip: for a tensor whose data type matches the
generic kind and carries an element size, whose strides have the
tensor's rank, whose name is nonempty, whitespace-trim-stable and free
of newlines, and whose shape and stride entries are 64-bit
representable, a successful `SaveTensor` followed by
`LoadTensorMetadata` of the same name yields exactly the tensor's
metadata record: the same name, shape, data type, and strides (the
rank-0 shape encodes as the empty string and decodes back to the empty
sequence). -/
theorem c7_save_load_roundtrip {α : Type} [Zero α] (typeStr : String)
    (wrap : List α → TypedData) (st : Store) (t : Tensor α) (esz : Int)
    (hdt : getElementSize t.dataType = .ok esz)
    (hsl : t.strides.length = t.shape.length)
    (hname0 : t.name ≠ "") (hnametr : trimChars t.name.data = t.name.data)
    (hnamenl : '\n' ∉ t.name.data)
    (hshB : ∀ v ∈ t.shape, int64Min ≤ v ∧ v ≤ int64Max)
    (hstB : ∀ v ∈ t.strides, int64Min ≤ v ∧ v ≤ int64Max)
    (hsave : (saveTensor typeStr wrap st t).1 = none) :
    loadTensorMetadata (saveTensor typeStr wrap st t).2 t.name =
      .ok ⟨t.name, t.shape, t.dataType, t.strides⟩ := by
  have htype : t.dataType = typeStr := by
    by_contra hne
    rw [show saveTensor typeStr wrap st t =
      (some "tensor DataType string does not match generic type T", st) from by
        unfold saveTensor
        rw [if_pos hne]] at hsave
    cases hsave
  unfold loadTensorMetadata
  rw [saveTensor_metaFiles typeStr wrap st t htype hsl, assocFind_assocSet_self]
  exact loadTensorMetadataInternal_metaContent t.name t.name t.dataType t.shape
    t.strides esz hdt hname0 hnametr hnamenl hshB hstB

theorem c7_save_load_roundtrip_witness :
    (getElementSize (Tensor.dataType (α := Int)
      ⟨"w", [2, 3], [1, 2, 3, 4, 5, 6], "int64", [3, 1]⟩) = .ok 8) ∧
    ((saveTensor "int64" TypedData.i64 ⟨[], [], emptyIndex⟩
      ⟨"w", [2, 3], [1, 2, 3, 4, 5, 6], "int64", [3, 1]⟩).1 = none) ∧
    loadTensorMetadata (saveTensor "int64" TypedData.i64 ⟨[], [], emptyIndex⟩
        ⟨"w", [2, 3], [1, 2, 3, 4, 5, 6], "int64", [3, 1]⟩).2 "w" =
      .ok ⟨"w", [2, 3], "int64", [3, 1]⟩ := by
  refine ⟨by rfl, by rfl, ?_⟩
  exact c7_save_load_roundtrip "int64" TypedData.i64 ⟨[], [], emptyIndex⟩
    ⟨"w", [2, 3], [1, 2, 3, 4, 5, 6], "int64", [3, 1]⟩ 8 (by rfl) (by rfl)
    (by decide) (by rfl) (by decide) (by decide) (by decide) (by rfl)

/-! ## Claim C5: GetSlice error conditions -/

theorem validateRanges_ok (shape : List Int) :
    ∀ (rs : List (Int × Int)) (i : Nat), i + rs.length = shape.length →
    (∀ j : Fin rs.length, 0 ≤ (rs.get j).1 ∧ (rs.get j).1 ≤ (rs.get j).2 ∧
      (rs.get j).2 ≤ shape.getD (i + (j : Nat)) 0) →
    validateRanges shape i rs = .ok (rs.map fun r => r.2 - r.1)
  | [], i, _, _ => rfl
  | r :: rs', i, hlen, hv => by
    have hi : i < shape.length := by
      simp only [List.length_cons] at hlen
      omega
    have hne : shape ≠ [] := by
      intro h
      rw [h] at hi
      simp at hi
    have hget : shape.get? i = some (shape.get ⟨i, hi⟩) := List.get?_eq_get hi
    have h0 := hv ⟨0, by simp⟩
    simp only [List.get] at h0
    have hgd : shape.getD (i + 0) 0 = shape.get ⟨i, hi⟩ := by
      rw [Nat.add_zero]
      simp [List.getD, List.getElem?_eq_getElem hi]
    rw [hgd] at h0
    unfold validateRanges
    rw [if_neg (by simp [hne])]
    simp only [hget]
    rw [if_neg (by push_neg; exact ⟨h0.1, h0.2.2, h0.2.1⟩)]
    rw [validateRanges_ok shape rs' (i + 1)
      (by simp only [List.length_cons] at hlen; omega)
      (fun j => by
        have := hv ⟨(j : Nat) + 1, by simp [j.isLt]⟩
        simp only [List.get] at this ⊢
        rw [show i + 1 + (j : Nat) = i + ((j : Nat) + 1) by omega]
        exact this)]
    rfl

theorem validateRanges_error (shape : List Int) :
    ∀ (rs : List (Int × Int)) (i : Nat), i + rs.length = shape.length →
    (∃ j : Fin rs.length, (rs.get j).1 < 0 ∨
      (rs.get j).2 > shape.getD (i + (j : Nat)) 0 ∨ (rs.get j).1 > (rs.get j).2) →
    ∃ e, validateRanges shape i rs = .error e
  | [], i, _, hv => by
    rcases hv with ⟨j, _⟩
    exact absurd j.isLt (by simp)
  | r :: rs', i, hlen, hv => by
    have hi : i < shape.length := by
      simp only [List.length_cons] at hlen
      omega
    have hne : shape ≠ [] := by
      intro h
      rw [h] at hi
      simp at hi
    have hget : shape.get? i = some (shape.get ⟨i, hi⟩) := List.get?_eq_get hi
    have hgd : shape.getD (i + 0) 0 = shape.get ⟨i, hi⟩ := by
      rw [Nat.add_zero]
      simp [List.getD, List.getElem?_eq_getElem hi]
    unfold validateRanges
    rw [if_neg (by simp [hne])]
    simp only [hget]
    by_cases hviol : r.1 < 0 ∨ r.2 > shape.get ⟨i, hi⟩ ∨ r.1 > r.2
    · rw [if_pos hviol]
      exact ⟨_, rfl⟩
    · rw [if_neg hviol]
      have htail : ∃ j : Fin rs'.length, (rs'.get j).1 < 0 ∨
          (rs'.get j).2 > shape.getD (i + 1 + (j : Nat)) 0 ∨
          (rs'.get j).1 > (rs'.get j).2 := by
        rcases hv with ⟨j, hj⟩
        rcases j with ⟨jv, hjlt⟩
        rcases jv with _ | jv'
        · exfalso
          apply hviol
          simp only [List.get] at hj
          rw [hgd] at hj
          exact hj
        · refine ⟨⟨jv', by simp at hjlt ⊢; omega⟩, ?_⟩
          simp only [List.get] at hj ⊢
          rw [show i + 1 + jv' = i + (jv' + 1) by omega]
          exact hj
      rcases validateRanges_error shape rs' (i + 1)
        (by simp only [List.length_cons] at hlen; omega) htail with ⟨e, he⟩
      rw [he]
      exact ⟨e, rfl⟩

theorem getSlice_error_of_errCond {α : Type} [Zero α] (t : Tensor α)
    (ranges : List (Int × Int)) (h : sliceErrCond t.shape ranges) :
    ∃ e, getSlice t ranges = .error e := by
  by_cases hA : emptySliceGuard t.shape ranges
  · rcases hA with ⟨htot, hne, hw⟩
    rcases hr : ranges with _ | ⟨r0, rest⟩
    · exact absurd hr hne
    · rw [hr] at hw
      simp only [List.headD] at hw
      refine ⟨"cannot get a non-empty slice from an empty tensor", ?_⟩
      subst hr
      show (if totalElems t.shape = 0 ∧ r0 :: rest ≠ [] ∧
          ((r0 :: rest).headD (0, 0)).2 - ((r0 :: rest).headD (0, 0)).1 > 0 then
          if ¬ ((r0 :: rest).all fun r => r.2 - r.1 ≤ 0) = true then
            Except.error "cannot get a non-empty slice from an empty tensor"
          else getSliceMain t (r0 :: rest)
        else getSliceMain t (r0 :: rest)) =
        Except.error "cannot get a non-empty slice from an empty tensor"
      rw [if_pos ⟨htot, by simp, by simp only [List.headD]; exact hw⟩]
      rw [if_pos (by
        simp only [List.all_cons, Bool.and_eq_true, decide_eq_true_eq, not_and]
        intro h0
        omega)]
  · have hgm : getSlice t ranges = getSliceMain t ranges := by
      show (if totalElems t.shape = 0 ∧ ranges ≠ [] ∧
          (ranges.headD (0, 0)).2 - (ranges.headD (0, 0)).1 > 0 then
          if ¬ (ranges.all fun r => r.2 - r.1 ≤ 0) = true then
            Except.error "cannot get a non-empty slice from an empty tensor"
          else getSliceMain t ranges
        else getSliceMain t ranges) = getSliceMain t ranges
      rw [if_neg (by unfold emptySliceGuard at hA; exact hA)]
    rcases h with hA' | hB | hC
    · exact absurd hA' hA
    · refine ⟨"slice ranges length does not match tensor dimensions", ?_⟩
      rw [hgm]
      unfold getSliceMain
      rw [if_pos (by unfold rankMismatch at hB; exact hB)]
    · by_cases hB : rankMismatch t.shape ranges
      · refine ⟨"slice ranges length does not match tensor dimensions", ?_⟩
        rw [hgm]
        unfold getSliceMain
        rw [if_pos (by unfold rankMismatch at hB; exact hB)]
      · unfold rankMismatch at hB
        by_cases hlen : ranges.length = t.shape.length
        · rcases hsh : t.shape with _ | ⟨d, ds⟩
          · exfalso
            rcases hC with ⟨j, _⟩
            have hj := j.isLt
            rw [hsh] at hlen
            simp only [List.length_nil] at hlen
            omega
          · have hC' : ∃ j : Fin ranges.length, (ranges.get j).1 < 0 ∨
                (ranges.get j).2 > t.shape.getD (0 + (j : Nat)) 0 ∨
                (ranges.get j).1 > (ranges.get j).2 := by
              rcases hC with ⟨j, hj⟩
              refine ⟨j, ?_⟩
              unfold specDimSize at hj
              rw [if_neg (by rw [hsh]; simp)] at hj
              simpa using hj
            rcases validateRanges_error t.shape ranges 0 (by omega) hC' with ⟨e, he⟩
            refine ⟨e, ?_⟩
            rw [hgm]
            unfold getSliceMain
            rw [if_neg (by rw [not_and_or]; exact Or.inl (by omega)), he]
        · by_cases hX : t.shape = [] ∧ ranges = [((0 : Int), (1 : Int))]
          · rw [hX.1, hX.2] at hC
            exact absurd hC (by unfold boundsViolation specDimSize; decide)
          · by_cases hY : t.shape = [1] ∧ ranges = [((0 : Int), (1 : Int))]
            · rw [hY.1, hY.2] at hC
              exact absurd hC (by unfold boundsViolation specDimSize; decide)
            · exact absurd ⟨hlen, hX, hY⟩ hB

theorem dotProd_shift : ∀ (zs : List (Int × Int)) (a : Int),
    zs.foldl (fun acc p => acc + p.1 * p.2) a =
      a + zs.foldl (fun acc p => acc + p.1 * p.2) 0
  | [], a => by simp
  | z :: zs', a => by
    simp only [List.foldl_cons]
    rw [dotProd_shift zs' (a + z.1 * z.2), dotProd_shift zs' (0 + z.1 * z.2)]
    ring

theorem dotProd_cons (x s : Int) (xs ss : List Int) :
    dotProd (x :: xs) (s :: ss) = x * s + dotProd xs ss := by
  unfold dotProd
  simp only [List.zip_cons_cons, List.foldl_cons]
  rw [dotProd_shift (xs.zip ss) (0 + x * s)]
  ring

theorem stridesCore_cons_pos : ∀ (d : Int) (ds : List Int), (∀ x ∈ ds, x ≠ 0) →
    stridesCore (d :: ds) = totalElems ds :: stridesCore ds
  | _, [], _ => rfl
  | d, d1 :: rest, h => by
    have h1 : d1 ≠ 0 := h d1 (by simp)
    have ih := stridesCore_cons_pos d1 rest (fun x hx => h x (by simp [hx]))
    show (if d1 = 0 then 0 else (stridesCore (d1 :: rest)).headD 0 * d1) ::
        stridesCore (d1 :: rest) = totalElems (d1 :: rest) :: stridesCore (d1 :: rest)
    rw [if_neg h1, ih]
    simp only [List.headD]
    rw [show totalElems (d1 :: rest) = d1 * totalElems rest from by
      simp [totalElems, h1]]
    rw [mul_comm]

theorem forall₂_pos_right : ∀ {xs ds : List Int},
    List.Forall₂ (fun x d => 0 ≤ x ∧ x < d) xs ds → ∀ y ∈ ds, 0 < y := by
  intro xs ds h
  induction h with
  | nil =>
    intro y hy
    simp at hy
  | cons hxd htail ih =>
    intro y hy
    rcases List.mem_cons.mp hy with rfl | hy'
    · omega
    · exact ih y hy'

theorem dotProd_bound : ∀ (idx shape : List Int),
    List.Forall₂ (fun x d => 0 ≤ x ∧ x < d) idx shape →
    0 ≤ dotProd idx (stridesCore shape) ∧
      dotProd idx (stridesCore shape) < totalElems shape
  | [], [], _ => by
    constructor
    · rfl
    · norm_num [dotProd, totalElems, stridesCore]
  | x :: xs, d :: ds, h => by
    rcases List.forall₂_cons.mp h with ⟨⟨hx0, hxd⟩, htail⟩
    have hpos : ∀ y ∈ ds, 0 < y := forall₂_pos_right htail
    have hne : ∀ y ∈ ds, y ≠ 0 := fun y hy => (hpos y hy).ne'
    have hT : 0 < totalElems ds := totalElems_pos_of_all_pos ds hpos
    have ih := dotProd_bound xs ds htail
    rw [stridesCore_cons_pos d ds hne, dotProd_cons]
    have hTtot : totalElems (d :: ds) = d * totalElems ds := by
      simp [totalElems, show d ≠ 0 from by omega]
    constructor
    · have : 0 ≤ x * totalElems ds := mul_nonneg hx0 hT.le
      linarith [ih.1]
    · have hxle : x ≤ d - 1 := by omega
      have h1 : x * totalElems ds ≤ (d - 1) * totalElems ds :=
        mul_le_mul_of_nonneg_right hxle hT.le
      have h2 : (d - 1) * totalElems ds + totalElems ds = d * totalElems ds := by
        ring
      rw [hTtot]
      linarith [ih.2]

theorem forall₂_reverse {γ δ : Type} {R : γ → δ → Prop}
    {xs : List γ} {ys : List δ} (h : List.Forall₂ R xs ys) :
    List.Forall₂ R xs.reverse ys.reverse :=
  List.rel_reverse h

theorem forall₂_compose {γ δ ε : Type} {P : γ → δ → Prop} {Q : δ → ε → Prop}
    {R : γ → ε → Prop} :
    ∀ {xs : List γ} {ys : List δ} {zs : List ε},
      List.Forall₂ P xs ys → List.Forall₂ Q ys zs →
      (∀ x y z, P x y → Q y z → R x z) → List.Forall₂ R xs zs := by
  intro xs ys zs h1
  induction h1 generalizing zs with
  | nil =>
    intro h2 _
    cases h2
    exact List.Forall₂.nil
  | cons hxy htail ih =>
    intro h2 himp
    cases h2 with
    | cons hyz h2tail =>
      exact List.Forall₂.cons (himp _ _ _ hxy hyz) (ih h2tail himp)

theorem odoIncRev_invariant :
    ∀ (is : List Int) (rs : List (Int × Int)),
    List.Forall₂ (fun x (r : Int × Int) => r.1 ≤ x ∧ x < r.2) is rs →
    (odoIncRev is rs).1 = true ∨
      List.Forall₂ (fun x (r : Int × Int) => r.1 ≤ x ∧ x < r.2) (odoIncRev is rs).2 rs
  | [], rs, h => by
    cases h
    exact Or.inr List.Forall₂.nil
  | i :: is', rs, h => by
    rcases rs with _ | ⟨r, rs'⟩
    · cases h
    · rcases List.forall₂_cons.mp h with ⟨⟨hlo, hhi⟩, htail⟩
      rw [odoIncRev]
      split_ifs with h1 h2
      · exact Or.inr (List.forall₂_cons.mpr ⟨⟨by omega, h1⟩, htail⟩)
      · exact Or.inl rfl
      · rcases odoIncRev_invariant is' rs' htail with hovf | hinv
        · exact Or.inl hovf
        · exact Or.inr (List.forall₂_cons.mpr ⟨⟨le_refl r.1, by omega⟩, hinv⟩)

theorem odoInc_invariant (idx : List Int) (ranges : List (Int × Int))
    (h : List.Forall₂ (fun x (r : Int × Int) => r.1 ≤ x ∧ x < r.2) idx ranges) :
    (odoInc idx ranges).1 = true ∨
      List.Forall₂ (fun x (r : Int × Int) => r.1 ≤ x ∧ x < r.2)
        (odoInc idx ranges).2 ranges := by
  unfold odoInc
  rcases odoIncRev_invariant idx.reverse ranges.reverse (forall₂_reverse h) with
    hovf | hinv
  · exact Or.inl hovf
  · right
    have := forall₂_reverse hinv
    rwa [List.reverse_reverse] at this

theorem sliceLoop_ok {α : Type} [Zero α] (shape : List Int) (data : List α)
    (ranges : List (Int × Int)) (resultSize : Int)
    (htot : totalElems shape > 0) (hlen : (data.length : Int) = totalElems shape)
    (hrange : List.Forall₂ (fun (r : Int × Int) d => 0 ≤ r.1 ∧ r.2 ≤ d) ranges shape) :
    ∀ (fuel : Nat) (idx : List Int) (acc : List α),
    List.Forall₂ (fun x (r : Int × Int) => r.1 ≤ x ∧ x < r.2) idx ranges →
    ∃ out, sliceLoop data (stridesCore shape) ranges (totalElems shape) resultSize
      fuel idx acc = .ok out
  | 0, idx, acc, _ => ⟨acc, rfl⟩
  | fuel + 1, idx, acc, hidx => by
    have hshape : List.Forall₂ (fun x d => 0 ≤ x ∧ x < d) idx shape :=
      forall₂_compose hidx hrange (fun x r d hxr hrd => ⟨by omega, by omega⟩)
    have hdp := dotProd_bound idx shape hshape
    unfold sliceLoop
    rw [if_pos htot]
    rw [dif_neg (by omega)]
    rw [dif_neg (by omega)]
    by_cases hf0 : fuel = 0
    · subst hf0
      rw [if_pos rfl]
      exact ⟨_, rfl⟩
    · rw [if_neg hf0]
      rcases hodo : odoInc idx ranges with ⟨ovf, idx'⟩
      rcases ovf with _ | _
      · have hinv : List.Forall₂ (fun x (r : Int × Int) => r.1 ≤ x ∧ x < r.2)
            idx' ranges := by
          rcases odoInc_invariant idx ranges hidx with hovf | hinv
          · rw [hodo] at hovf
            cases hovf
          · rw [hodo] at hinv
            exact hinv
        exact sliceLoop_ok shape data ranges resultSize htot hlen hrange fuel idx' _
          hinv
      · exact ⟨_, rfl⟩

theorem getSlice_eq_main {α : Type} [Zero α] (t : Tensor α)
    (ranges : List (Int × Int)) (hA : ¬ emptySliceGuard t.shape ranges) :
    getSlice t ranges = getSliceMain t ranges := by
  show (if totalElems t.shape = 0 ∧ ranges ≠ [] ∧
      (ranges.headD (0, 0)).2 - (ranges.headD (0, 0)).1 > 0 then
      if ¬ (ranges.all fun r => r.2 - r.1 ≤ 0) = true then
        Except.error "cannot get a non-empty slice from an empty tensor"
      else getSliceMain t ranges
    else getSliceMain t ranges) = getSliceMain t ranges
  rw [if_neg (by unfold emptySliceGuard at hA; exact hA)]

theorem getSlice_ok_of_not_errCond {α : Type} [Zero α] (t : Tensor α)
    (ranges : List (Int × Int)) (hwf : WFTensor t)
    (h : ¬ sliceErrCond t.shape ranges) :
    ∃ out, getSlice t ranges = .ok out := by
  have h' : ¬ emptySliceGuard t.shape ranges ∧ ¬ rankMismatch t.shape ranges ∧
      ¬ boundsViolation t.shape ranges := by
    unfold sliceErrCond at h
    push_neg at h
    exact h
  obtain ⟨hnA, hnB, hnC⟩ := h'
  rw [getSlice_eq_main t ranges hnA]
  obtain ⟨hdims, hstr, hdlen⟩ := hwf
  obtain ⟨nm, sh, da, dt, st⟩ := t
  simp only [] at hdims hstr hdlen hnA hnB hnC
  by_cases hsh : sh = []
  · subst hsh
    have hrg : ranges = [] ∨ ranges = [((0 : Int), (1 : Int))] := by
      by_cases h0 : ranges = []
      · exact Or.inl h0
      · right
        by_cases hX : ([] : List Int) = [] ∧ ranges = [((0 : Int), (1 : Int))]
        · exact hX.2
        · exfalso
          apply hnB
          unfold rankMismatch
          refine ⟨by simpa using h0, hX, ?_⟩
          rintro ⟨h1, _⟩
          exact absurd h1 (by decide)
    have hd1 : (da.length : Int) = 1 := hdlen
    rcases hdata : da with _ | ⟨x, rest⟩
    · rw [hdata] at hd1
      simp at hd1
    · subst hdata
      rcases hrg with rfl | rfl
      · exact ⟨[x], rfl⟩
      · exact ⟨[x], rfl⟩
  · have hlen : ranges.length = sh.length := by
      by_cases hlen0 : ranges.length = sh.length
      · exact hlen0
      · exfalso
        by_cases hY : sh = [1] ∧ ranges = [((0 : Int), (1 : Int))]
        · apply hlen0
          rw [hY.1, hY.2]
          rfl
        · apply hnB
          unfold rankMismatch
          exact ⟨hlen0, fun hc => hsh hc.1, hY⟩
    have hv' : ∀ j : Fin ranges.length, 0 ≤ (ranges.get j).1 ∧
        (ranges.get j).1 ≤ (ranges.get j).2 ∧
        (ranges.get j).2 ≤ sh.getD (0 + (j : Nat)) 0 := by
      intro j
      unfold boundsViolation at hnC
      push_neg at hnC
      have hj := hnC j
      unfold specDimSize at hj
      rw [if_neg (by simp [hsh])] at hj
      rw [Nat.zero_add]
      exact ⟨hj.1, hj.2.2, hj.2.1⟩
    have hval : validateRanges sh 0 ranges = .ok (ranges.map fun r => r.2 - r.1) :=
      validateRanges_ok sh ranges 0 (by omega) hv'
    unfold getSliceMain
    simp only []
    rw [if_neg (by rw [not_and_or]; exact Or.inl (by omega)), hval]
    simp only []
    by_cases hrs : totalElems (ranges.map fun r => r.2 - r.1) = 0
    · rw [if_pos hrs]
      exact ⟨[], rfl⟩
    · rw [if_neg hrs]
      have hwne : ∀ j : Fin ranges.length,
          (ranges.get j).2 - (ranges.get j).1 ≠ 0 := by
        intro j h0
        apply hrs
        apply totalElems_eq_zero_of_mem_zero
        rw [← h0]
        exact List.mem_map.mpr ⟨ranges.get j, List.get_mem _ _ _, rfl⟩
      have hdpos : ∀ d ∈ sh, 0 < d := by
        intro d hd
        rcases List.mem_iff_get.mp hd with ⟨k, rfl⟩
        have hk : (k : Nat) < ranges.length := by
          have := k.isLt
          omega
        have hj := hv' ⟨(k : Nat), hk⟩
        have hw := hwne ⟨(k : Nat), hk⟩
        have hgd : sh.getD (0 + (k : Nat)) 0 = sh.get k := by
          simp [List.getD, List.getElem?_eq_getElem k.isLt]
        rw [hgd] at hj
        omega
      have htot : totalElems sh > 0 := totalElems_pos_of_all_pos sh hdpos
      have hrange : List.Forall₂ (fun (r : Int × Int) d => 0 ≤ r.1 ∧ r.2 ≤ d)
          ranges sh :=
        List.forall₂_iff_get.mpr ⟨hlen, fun i h1 h2 => by
          have hj := hv' ⟨i, h1⟩
          have hgd : sh.getD (0 + i) 0 = sh.get ⟨i, h2⟩ := by
            simp [List.getD, List.getElem?_eq_getElem h2]
          rw [hgd] at hj
          exact ⟨hj.1, hj.2.2⟩⟩
      have hidx : List.Forall₂ (fun x (r : Int × Int) => r.1 ≤ x ∧ x < r.2)
          (ranges.map Prod.fst) ranges :=
        List.forall₂_iff_get.mpr ⟨by simp, fun i h1 h2 => by
          have hj := hv' ⟨i, h2⟩
          have hw := hwne ⟨i, h2⟩
          have hget : (ranges.map Prod.fst).get ⟨i, h1⟩ = (ranges.get ⟨i, h2⟩).1 := by
            simp
          rw [hget]
          exact ⟨le_refl _, by omega⟩⟩
      have hscore : st = stridesCore sh := by
        rw [hstr]
        unfold computeStridesNew
        rw [if_pos ⟨by simp [List.length_pos.mpr hsh], htot⟩]
      have htake : ranges.take sh.length = ranges := by
        rw [← hlen]
        exact List.take_length ranges
      by_cases hscal : totalElems sh = 1 ∧ sh.length ≤ 1 ∧
          totalElems (ranges.map fun r => r.2 - r.1) = 1
      · rw [if_pos hscal]
        rcases hdata : da with _ | ⟨x, rest⟩
        · exfalso
          rw [hdata] at hdlen
          simp only [List.length_nil, Int.ofNat_eq_coe, Nat.cast_zero] at hdlen
          omega
        · exact ⟨[x], rfl⟩
      · rw [if_neg hscal]
        rw [htake, hscore]
        rcases sliceLoop_ok sh da ranges
            (totalElems (ranges.map fun r => r.2 - r.1)) htot hdlen hrange
            (totalElems (ranges.map fun r => r.2 - r.1)).toNat
            (ranges.map Prod.fst) [] hidx with ⟨out, hout⟩
        exact ⟨out, hout⟩

/-- C5 (counterexample).  A well-formed tensor of shape `[2, 0]` (zero
total elements) with the range list `[(0,1), (0,0)]`: the range count
matches the rank and every dimension satisfies `0 ≤ lo ≤ hi ≤ shape[i]`,
yet `GetSlice` fails — the empty-tensor pre-check
(`src/tensor/tensor.go:176-187`) rejects any range list whose first
range has positive width when the tensor has zero total elements.  The
claim's "fails exactly when some dimension violates the bounds or the
rank mismatches" is therefore too narrow. -/
theorem c5_counterexample :
    WFTensor (⟨"z", [2, 0], [], "float64", [0, 0]⟩ : Tensor Rat) ∧
    ¬ rankMismatch [(2 : Int), 0] [((0 : Int), (1 : Int)), ((0 : Int), (0 : Int))] ∧
    ¬ boundsViolation [(2 : Int), 0]
        [((0 : Int), (1 : Int)), ((0 : Int), (0 : Int))] ∧
    getSlice (⟨"z", [2, 0], [], "float64", [0, 0]⟩ : Tensor Rat)
        [((0 : Int), (1 : Int)), ((0 : Int), (0 : Int))] =
      .error "cannot get a non-empty slice from an empty tensor" := by
  refine ⟨by decide, ?_, ?_, by rfl⟩
  · unfold rankMismatch
    decide
  · unfold boundsViolation specDimSize
    decide

/-- C5 (amended).  For a well-formed tensor, `GetSlice` succeeds exactly
when none of the following holds: the empty-tensor pre-check fires (zero
total elements and a positive-width first range), the range count
differs from the rank (modulo the two tolerated exceptions for a rank-0
tensor and a shape-`[1]` tensor with the single range `[0,1)`), or some
dimension violates `0 ≤ lo ≤ hi ≤ shape[i]`. -/
theorem c5_slice_errors {α : Type} [Zero α] (t : Tensor α)
    (ranges : List (Int × Int)) (hwf : WFTensor t) :
    (∃ out, getSlice t ranges = .ok out) ↔ ¬ sliceErrCond t.shape ranges := by
  constructor
  · rintro ⟨out, hok⟩ herr
    rcases getSlice_error_of_errCond t ranges herr with ⟨e, he⟩
    rw [he] at hok
    cases hok
  · exact getSlice_ok_of_not_errCond t ranges hwf

theorem c5_slice_errors_witness :
    WFTensor (⟨"w", [2], [(5 : Int), 7], "int64", [1]⟩ : Tensor Int) ∧
    ¬ sliceErrCond [(2 : Int)] [((0 : Int), (2 : Int))] ∧
    (∃ out, getSlice (⟨"w", [2], [(5 : Int), 7], "int64", [1]⟩ : Tensor Int)
      [((0 : Int), (2 : Int))] = .ok out) :=
  ⟨by decide, by decide,
    (c5_slice_errors (⟨"w", [2], [(5 : Int), 7], "int64", [1]⟩ : Tensor Int)
      [((0 : Int), (2 : Int))] (by decide)).mpr (by decide)⟩

end TensorDB
